import Mathlib

/-!
Verification of the SOC-report extraction pipeline (`app/app.py`).

Strings from the source are embedded as `List Char` (Python `str` values);
each Python helper is translated into a Lean definition of the same name
where the grammar allows.  Machine-level concerns (the AWS transport, the
PDF library, `hashlib`) are modelled at the boundary they present to this
code: the inference transport is an oracle of call outcomes, and the SHA-1
dedup key is modelled by the normalized pre-image string it hashes (the code
relies on the hash being injective on these strings).
-/

namespace SocExtract

/-- Whitespace characters recognised by Python's `str.strip` / `\s`
(ASCII range, which is all this document family uses). -/
def isWsC (c : Char) : Bool :=
  c = ' ' || c = '\t' || c = '\n' || c = '\r' || c = '\x0b' || c = '\x0c'

/-- Leading-whitespace strip (left part of Python `str.strip`). -/
def dropLeadWs (s : List Char) : List Char := s.dropWhile isWsC

/-- Trailing-whitespace strip (right part of Python `str.strip`). -/
def dropTrailWs (s : List Char) : List Char := (s.reverse.dropWhile isWsC).reverse

/-- Python `str.strip()`. -/
def trimC (s : List Char) : List Char := dropTrailWs (dropLeadWs s)

/-- Python `str.lower()` (ASCII). -/
def lowerC (s : List Char) : List Char := s.map Char.toLower

/-- Python `str.upper()` (ASCII). -/
def upperC (s : List Char) : List Char := s.map Char.toUpper

/-- Python `needle in haystack` substring test. -/
def isSubstr (p : List Char) : List Char → Bool
  | [] => p.isPrefixOf ([] : List Char)
  | c :: t => p.isPrefixOf (c :: t) || isSubstr p t

/-- Fuel-driven scanner behind `countSub` (the fuel is the scan length, so
it never runs out when started at `s.length`). -/
def countSubAux (p : List Char) : Nat → List Char → Nat
  | 0, _ => 0
  | _, [] => 0
  | fuel + 1, c :: rest =>
    if p ≠ [] ∧ p.isPrefixOf (c :: rest) then
      1 + countSubAux p fuel (rest.drop (p.length - 1))
    else
      countSubAux p fuel rest
termination_by structural fuel => fuel

/-- Python `str.count`: number of non-overlapping occurrences, scanning left
to right. -/
def countSub (p : List Char) (s : List Char) : Nat := countSubAux p s.length s

/-- Python `str.split("\n")`. -/
def splitOnNl : List Char → List (List Char)
  | [] => [[]]
  | c :: rest =>
    let r := splitOnNl rest
    if c = '\n' then [] :: r
    else
      match r with
      | l :: ls => (c :: l) :: ls
      | [] => [[c]]

/-- Decimal digit character. -/
def digitChar (d : Nat) : Char := Char.ofNat (48 + d)

/-- Fuel-driven decimal rendering used by `natToChars`. -/
def natToCharsAux : Nat → Nat → List Char
  | 0, _ => []
  | fuel + 1, n => if n < 10 then [digitChar n] else natToCharsAux fuel (n / 10) ++ [digitChar (n % 10)]

/-- Decimal rendering of a natural number (Python `str(n)` / f-string
interpolation of an `int`). -/
def natToChars (n : Nat) : List Char := natToCharsAux (n + 1) n

/-- Decimal value of a digit string (Python `int(s)` on an all-digit string). -/
def natOfDigits (s : List Char) : Nat :=
  s.foldl (fun acc c => acc * 10 + (c.toNat - 48)) 0

/-- Index of the first occurrence of a character (Python `str.find`,
`none` for -1). -/
def findIdxChar (c : Char) : List Char → Option Nat
  | [] => none
  | x :: xs => if x = c then some 0 else (findIdxChar c xs).map (· + 1)

/-- Index of the last occurrence of a character (Python `str.rfind`,
`none` for -1). -/
def rfindIdxChar (c : Char) : List Char → Option Nat
  | [] => none
  | x :: xs =>
    match rfindIdxChar c xs with
    | some i => some (i + 1)
    | none => if x = c then some 0 else none

/-- `{` written via its code point (it only ever appears as data here). -/
def lbrace : Char := Char.ofNat 123

/-- `}` written via its code point. -/
def rbrace : Char := Char.ofNat 125

/-- Backtick written via its code point. -/
def btick : Char := Char.ofNat 96

/-- The three-backtick code-fence marker. -/
def fence3 : List Char := [btick, btick, btick]

-- ---------------------------------------------------------------------------
-- JSON values and a parser standing in for Python's `json.loads`.
-- `json.loads` is external library code; it is modelled here by a concrete
-- recursive-descent parser over the same surface syntax: it skips the JSON
-- whitespace characters around one value and rejects any trailing garbage,
-- which is the behaviour `_parse_model_json` relies on.  Numbers keep their
-- source lexeme (their numeric interpretation never matters to this code);
-- `\uXXXX` escapes are outside the model.
-- ---------------------------------------------------------------------------

/-- A JSON value as produced by the modelled `json.loads`. -/
inductive Json where
  | jnull
  | jbool (b : Bool)
  | jnum (lexeme : List Char)
  | jstr (s : List Char)
  | jarr (xs : List Json)
  | jobj (fields : List (List Char × Json))

/-- Whitespace accepted between JSON tokens. -/
def isJsonWs (c : Char) : Bool := c = ' ' || c = '\t' || c = '\n' || c = '\r'

/-- Characters that can extend a JSON number lexeme. -/
def isNumChar (c : Char) : Bool :=
  c.isDigit || c = '-' || c = '+' || c = '.' || c = 'e' || c = 'E'

/-- Decoded character for a single-character string escape. -/
def escChar (c : Char) : Option Char :=
  if c = '"' then some '"'
  else if c = '\\' then some '\\'
  else if c = '/' then some '/'
  else if c = 'b' then some '\x08'
  else if c = 'f' then some '\x0c'
  else if c = 'n' then some '\n'
  else if c = 'r' then some '\r'
  else if c = 't' then some '\t'
  else none

/-- JSON string body parser: input starts after the opening quote; returns
the decoded body and the remainder after the closing quote. -/
def pStrBody : List Char → Option (List Char × List Char)
  | [] => none
  | c :: rest =>
    if c = '"' then some ([], rest)
    else if c = '\\' then
      match rest with
      | [] => none
      | e :: rest2 =>
        match escChar e with
        | some d =>
          match pStrBody rest2 with
          | some (body, r) => some (d :: body, r)
          | none => none
        | none => none
    else
      match pStrBody rest with
      | some (body, r) => some (c :: body, r)
      | none => none

mutual

/-- JSON value parser (fuel-driven). -/
def pVal : Nat → List Char → Option (Json × List Char)
  | 0, _ => none
  | fuel + 1, s =>
    match s.dropWhile isJsonWs with
    | [] => none
    | c :: rest =>
      if c = lbrace then pObjFirst fuel rest
      else if c = '[' then pArrFirst fuel rest
      else if c = '"' then
        match pStrBody rest with
        | some (body, r) => some (.jstr body, r)
        | none => none
      else if ("true".data).isPrefixOf (c :: rest) then some (.jbool true, (c :: rest).drop 4)
      else if ("false".data).isPrefixOf (c :: rest) then some (.jbool false, (c :: rest).drop 5)
      else if ("null".data).isPrefixOf (c :: rest) then some (.jnull, (c :: rest).drop 4)
      else if c = '-' || c.isDigit then
        let lex := (c :: rest).takeWhile isNumChar
        some (.jnum lex, (c :: rest).drop lex.length)
      else none
termination_by structural fuel => fuel

/-- Array parser, positioned just after `[`. -/
def pArrFirst : Nat → List Char → Option (Json × List Char)
  | 0, _ => none
  | fuel + 1, s =>
    match s.dropWhile isJsonWs with
    | [] => none
    | c :: rest =>
      if c = ']' then some (.jarr [], rest)
      else
        match pVal fuel (c :: rest) with
        | some (v, r) => pArrLoop fuel r [v]
        | none => none
termination_by structural fuel => fuel

/-- Array continuation: expects `,` or `]`. -/
def pArrLoop : Nat → List Char → List Json → Option (Json × List Char)
  | 0, _, _ => none
  | fuel + 1, s, acc =>
    match s.dropWhile isJsonWs with
    | [] => none
    | c :: rest =>
      if c = ']' then some (.jarr acc.reverse, rest)
      else if c = ',' then
        match pVal fuel rest with
        | some (v, r) => pArrLoop fuel r (v :: acc)
        | none => none
      else none
termination_by structural fuel => fuel

/-- Object parser, positioned just after the opening brace. -/
def pObjFirst : Nat → List Char → Option (Json × List Char)
  | 0, _ => none
  | fuel + 1, s =>
    match s.dropWhile isJsonWs with
    | [] => none
    | c :: rest =>
      if c = rbrace then some (.jobj [], rest)
      else if c = '"' then
        match pStrBody rest with
        | some (key, r) => pObjPair fuel r key []
        | none => none
      else none
termination_by structural fuel => fuel

/-- Parses `: value` after an object key, then continues the object. -/
def pObjPair : Nat → List Char → List Char → List (List Char × Json) →
    Option (Json × List Char)
  | 0, _, _, _ => none
  | fuel + 1, s, key, acc =>
    match s.dropWhile isJsonWs with
    | [] => none
    | c :: rest =>
      if c = ':' then
        match pVal fuel rest with
        | some (v, r) => pObjLoop fuel r ((key, v) :: acc)
        | none => none
      else none
termination_by structural fuel => fuel

/-- Object continuation: expects `,` followed by a key, or the closing
brace. -/
def pObjLoop : Nat → List Char → List (List Char × Json) → Option (Json × List Char)
  | 0, _, _ => none
  | fuel + 1, s, acc =>
    match s.dropWhile isJsonWs with
    | [] => none
    | c :: rest =>
      if c = rbrace then some (.jobj acc.reverse, rest)
      else if c = ',' then
        match rest.dropWhile isJsonWs with
        | [] => none
        | k :: krest =>
          if k = '"' then
            match pStrBody krest with
            | some (key, r) => pObjPair fuel r key acc
            | none => none
          else none
      else none
termination_by structural fuel => fuel

end

/-- Model of Python `json.loads`: accepts surrounding JSON whitespace around
exactly one value, rejects anything else (`none` models the raised
`JSONDecodeError`). -/
def parseJson (s : List Char) : Option Json :=
  let t := trimC s
  match pVal (2 * t.length + 2) t with
  | some (v, rest) => if rest.dropWhile isJsonWs = [] then some v else none
  | none => none

/-- `_strip_code_fences`, leading-fence substitution
(`re.sub(r"^```(?:json)?\s*", "", s, flags=re.IGNORECASE)`). -/
def stripLeadFenceAux (s : List Char) : List Char :=
  if fence3.isPrefixOf s then
    let r := s.drop 3
    let r := if lowerC (r.take 4) = "json".data then r.drop 4 else r
    r.dropWhile isWsC
  else s

/-- `_strip_code_fences`, trailing-fence substitution
(`re.sub(r"\s*```$", "", s)`). -/
def stripTrailFenceAux (s : List Char) : List Char :=
  if fence3.isSuffixOf s then dropTrailWs (s.take (s.length - 3)) else s

/-- `app.py` `_strip_code_fences`. -/
def _strip_code_fences (text : List Char) : List Char :=
  if text = [] then text
  else
    let s := trimC text
    let s := stripLeadFenceAux s
    let s := stripTrailFenceAux s
    trimC s

/-- `app.py` `_parse_model_json`: parse as-is, then with fences stripped,
then the substring from the first opening brace to the last closing brace;
`none` models the final raised `JSONDecodeError`. -/
def _parse_model_json (text : List Char) : Option Json :=
  match parseJson text with
  | some v => some v
  | none =>
    let s := _strip_code_fences text
    match parseJson s with
    | some v => some v
    | none =>
      match findIdxChar lbrace s, rfindIdxChar rbrace s with
      | some start, some stop =>
        if start < stop then parseJson ((s.drop start).take (stop + 1 - start)) else none
      | _, _ => none

-- ---------------------------------------------------------------------------
-- Section marker detection (`detect_section_markers`).
-- The six `re` patterns are embedded as matcher functions.  Patterns 1-3, 5
-- and 6 carry `^...$`/`^...` anchors under `re.MULTILINE` and are modelled
-- line by line; pattern 4 is unanchored and scans the whole page.  The
-- alternation `([IVX]+|[0-9]+|ONE|...|TEN)` is modelled by maximal-munch
-- token reading (for these patterns a shorter backtracked token can never
-- rescue a failed match, because the character after a shorter token would
-- be another token character where the pattern demands a delimiter).
-- ---------------------------------------------------------------------------

/-- Characters of a roman-numeral token (`[IVX]`). -/
def isRomanC (c : Char) : Bool := c = 'I' || c = 'V' || c = 'X'

/-- Dash variants accepted by the section patterns (`[-–—]`). -/
def isDashC (c : Char) : Bool := c = '-' || c = '–' || c = '—'

/-- The spelled-out number alternatives of the section-number pattern. -/
def sectionWords : List (List Char) :=
  [("ONE").data, ("TWO").data, ("THREE").data, ("FOUR").data, ("FIVE").data,
   ("SIX").data, ("SEVEN").data, ("EIGHT").data, ("NINE").data, ("TEN").data]

/-- `parse_section_number`: roman numeral, spelled-out word or digit string
to integer; anything else is 0. -/
def parse_section_number (section_str : List Char) : Nat :=
  let t := upperC (trimC section_str)
  if t = ("I").data then 1
  else if t = ("II").data then 2
  else if t = ("III").data then 3
  else if t = ("IV").data then 4
  else if t = ("V").data then 5
  else if t = ("VI").data then 6
  else if t = ("VII").data then 7
  else if t = ("VIII").data then 8
  else if t = ("IX").data then 9
  else if t = ("X").data then 10
  else if t = ("ONE").data then 1
  else if t = ("TWO").data then 2
  else if t = ("THREE").data then 3
  else if t = ("FOUR").data then 4
  else if t = ("FIVE").data then 5
  else if t = ("SIX").data then 6
  else if t = ("SEVEN").data then 7
  else if t = ("EIGHT").data then 8
  else if t = ("NINE").data then 9
  else if t = ("TEN").data then 10
  else if t ≠ [] ∧ t.all Char.isDigit then natOfDigits t
  else 0

/-- Reads one section-number token (roman run, digit run, or spelled-out
word) at the head of the input. -/
def munchToken (s : List Char) : Option (List Char × List Char) :=
  let r := s.takeWhile isRomanC
  if r ≠ [] then some (r, s.drop r.length)
  else
    let d := s.takeWhile Char.isDigit
    if d ≠ [] then some (d, s.drop d.length)
    else
      match sectionWords.find? (fun w => w.isPrefixOf s) with
      | some w => some (w, s.drop w.length)
      | none => none

/-- Pattern 1, per (uppercased) line: `^\s*SECTION\s+NUM\s*$`. -/
def matchP1 (line : List Char) : Option (List Char) :=
  let l := line.dropWhile isWsC
  if ("SECTION").data.isPrefixOf l then
    let r := l.drop 7
    if r.takeWhile isWsC ≠ [] then
      match munchToken (r.dropWhile isWsC) with
      | some (tok, rest) => if rest.all isWsC then some tok else none
      | none => none
    else none
  else none

/-- Pattern 2, per (uppercased) line: `^\s*SECTION\s+NUM\s*[-–—]\s*\S`. -/
def matchP2 (line : List Char) : Option (List Char) :=
  let l := line.dropWhile isWsC
  if ("SECTION").data.isPrefixOf l then
    let r := l.drop 7
    if r.takeWhile isWsC ≠ [] then
      match munchToken (r.dropWhile isWsC) with
      | some (tok, rest) =>
        match rest.dropWhile isWsC with
        | d :: tail => if isDashC d ∧ tail.dropWhile isWsC ≠ [] then some tok else none
        | [] => none
      | none => none
    else none
  else none

/-- Pattern 3, per (uppercased) line: `^\s*SECTION\s*[-–—]\s*NUM(?:\s|$|[-–—])`. -/
def matchP3 (line : List Char) : Option (List Char) :=
  let l := line.dropWhile isWsC
  if ("SECTION").data.isPrefixOf l then
    match (l.drop 7).dropWhile isWsC with
    | d :: tail =>
      if isDashC d then
        match munchToken (tail.dropWhile isWsC) with
        | some (tok, rest) =>
          match rest with
          | [] => some tok
          | c :: _ => if isWsC c ∨ isDashC c then some tok else none
        | none => none
      else none
    | [] => none
  else none

/-- One attempt of pattern 4 at a fixed position of the uppercased page:
`SECTION\s+NUM\s*[\n\r]` (the whitespace run after the token must contain a
line break). -/
def p4attempt (s : List Char) : Option (List Char) :=
  if ("SECTION").data.isPrefixOf s then
    let r := s.drop 7
    if r.takeWhile isWsC ≠ [] then
      match munchToken (r.dropWhile isWsC) with
      | some (tok, rest) =>
        let run := rest.takeWhile isWsC
        if run.contains '\n' || run.contains '\r' then some tok else none
      | none => none
    else none
  else none

/-- Leftmost-occurrence scan for pattern 4. -/
def p4scan : List Char → Option (List Char)
  | [] => none
  | c :: rest =>
    match p4attempt (c :: rest) with
    | some t => some t
    | none => p4scan rest

/-- Pattern 5, per (original-case) line: `^\s*([IVX]+)\.\s*$`. -/
def matchP5 (line : List Char) : Option (List Char) :=
  let l := line.dropWhile isWsC
  let r := l.takeWhile isRomanC
  if r ≠ [] then
    match l.drop r.length with
    | '.' :: rest => if rest.all isWsC then some r else none
    | _ => none
  else none

/-- Line shape of pattern 6: `^\s*([IVX]+)\.\s+[A-Z]`. -/
def lineMatchesP6 (line : List Char) : Option (List Char) :=
  let l := line.dropWhile isWsC
  let r := l.takeWhile isRomanC
  if r ≠ [] then
    match l.drop r.length with
    | '.' :: rest =>
      if rest.takeWhile isWsC ≠ [] then
        match rest.dropWhile isWsC with
        | c :: _ => if 'A' ≤ c ∧ c ≤ 'Z' then some r else none
        | [] => none
      else none
    | _ => none
  else none

/-- Lines of a page together with the offset at which each line starts. -/
def linesPosAux : Nat → List (List Char) → List (Nat × List Char)
  | _, [] => []
  | pos, l :: ls => (pos, l) :: linesPosAux (pos + l.length + 1) ls

/-- Pattern 6 on the whole page: the first matching line is accepted only
when the trimmed text preceding it is shorter than 200 characters
(`match.start()` bound of the source). -/
def matchP6 (page : List Char) : Option (List Char) :=
  match (linesPosAux 0 (splitOnNl page)).find? (fun pl => (lineMatchesP6 pl.2).isSome) with
  | some (pos, line) =>
    match lineMatchesP6 line with
    | some tok => if (trimC (page.take pos)).length < 200 then some tok else none
    | none => none
  | none => none

/-- First line on which a line matcher fires (`re.search` under
`re.MULTILINE`). -/
def firstSome (f : List Char → Option (List Char)) : List (List Char) → Option (List Char)
  | [] => none
  | l :: ls =>
    match f l with
    | some t => some t
    | none => firstSome f ls

/-- Applies a line matcher and converts its token, 0 when nothing matches
(mirrors `detected_section = parse_section_number(match.group(1))`). -/
def tryPattern (f : List Char → Option (List Char)) (lines : List (List Char)) : Nat :=
  match firstSome f lines with
  | some tok => parse_section_number tok
  | none => 0

/-- The per-page detection cascade of `detect_section_markers`: the six
patterns tried in order, a pattern that matches but parses to 0 falling
through to the next (`if not detected_section`). -/
def detected_section (page : List Char) : Nat :=
  let up := upperC page
  let upLines := splitOnNl up
  let origLines := splitOnNl page
  let d := tryPattern matchP1 upLines
  let d := if d = 0 then tryPattern matchP2 upLines else d
  let d := if d = 0 then tryPattern matchP3 upLines else d
  let d := if d = 0 then
      (match p4scan up with
       | some tok => parse_section_number tok
       | none => 0)
    else d
  let d := if d = 0 then tryPattern matchP5 origLines else d
  let d := if d = 0 then
      (match matchP6 page with
       | some tok => parse_section_number tok
       | none => 0)
    else d
  d

/-- Table-of-contents guard: a literal heading within the first 500
characters of the page. -/
def isTocPage (page : List Char) : Bool :=
  isSubstr ("Table of Contents").data (page.take 500) ||
    isSubstr ("TABLE OF CONTENTS").data (page.take 500)

/-- The forward-fill fold of `detect_section_markers`, threading
`current_section`. -/
def detectLoop : Nat → List (List Char) → List Nat
  | _, [] => []
  | cur, p :: ps =>
    if isTocPage p then cur :: detectLoop cur ps
    else
      let d := detected_section p
      let cur2 := if 0 < d then d else cur
      cur2 :: detectLoop cur2 ps

/-- `detect_section_markers`: page-index-aligned section numbers (the
source's `{index: section}` dict, read back with `.get(i, 0)`). -/
def detect_section_markers (pages : List (List Char)) : List Nat :=
  detectLoop 0 pages

-- ---------------------------------------------------------------------------
-- Structural fallback scorer (`analyze_text_structure`).
-- ---------------------------------------------------------------------------

/-- Result record of `analyze_text_structure`. -/
structure TextAnalysis where
  line_count : Nat
  indicators : List (List Char)
  score_adjustments : Nat
deriving DecidableEq

/-- The fixed testing-language phrase set. -/
def result_phrases : List (List Char) :=
  [("no exceptions noted").data, ("inquired of").data, ("inspected the").data,
   ("determined that").data, ("observed that").data]

/-- Word characters for `\b` boundaries (`[A-Za-z0-9_]`). -/
def isWordChar (c : Char) : Bool := c.isAlphanum || c = '_'

/-- Match of `CC\s*\d+\.\d+\b` (case-insensitive) at the head of the input;
returns the matched length.  The leading `\b` is the caller's charge. -/
def ccMatchAt (s : List Char) : Option Nat :=
  match s with
  | c0 :: c1 :: r =>
    if (c0 = 'C' ∨ c0 = 'c') ∧ (c1 = 'C' ∨ c1 = 'c') then
      let w := r.takeWhile isWsC
      let r2 := r.drop w.length
      let d1 := r2.takeWhile Char.isDigit
      if d1 ≠ [] then
        match r2.drop d1.length with
        | '.' :: r3 =>
          let d2 := r3.takeWhile Char.isDigit
          if d2 ≠ [] then
            match r3.drop d2.length with
            | [] => some (2 + w.length + d1.length + 1 + d2.length)
            | c :: _ =>
              if isWordChar c then none
              else some (2 + w.length + d1.length + 1 + d2.length)
          else none
        | _ => none
      else none
    else none
  | _ => none

/-- Non-overlapping scan counting criterion-ID-shaped tokens
(`re.findall` of the pattern above). -/
def ccCountAux : Nat → Bool → List Char → Nat
  | 0, _, _ => 0
  | _, _, [] => 0
  | fuel + 1, prevWord, c :: rest =>
    match (if prevWord then none else ccMatchAt (c :: rest)) with
    | some len => 1 + ccCountAux fuel true ((c :: rest).drop len)
    | none => ccCountAux fuel (isWordChar c) rest
termination_by structural fuel => fuel

/-- Count of criterion-ID-shaped tokens in a page. -/
def ccCount (s : List Char) : Nat := ccCountAux s.length false s

/-- Fuel-driven splitter behind `splitWs3`. -/
def splitWs3Aux : Nat → List Char → List (List Char)
  | 0, _ => [[]]
  | _, [] => [[]]
  | fuel + 1, c :: rest =>
    let run := (c :: rest).takeWhile isWsC
    if 3 ≤ run.length then
      [] :: splitWs3Aux fuel ((c :: rest).drop run.length)
    else
      match splitWs3Aux fuel rest with
      | l :: ls => (c :: l) :: ls
      | [] => [[c]]
termination_by structural fuel => fuel

/-- `re.split(r'\s{3,}', line)`: split at whitespace runs of length ≥ 3. -/
def splitWs3 (l : List Char) : List (List Char) := splitWs3Aux l.length l

/-- `analyze_text_structure`.  The multi-column threshold
`multi_column_lines / len(lines) > 0.3` is a float comparison in the
source; it is embedded as the rational `3 * len(lines) < 10 * mc`
(`float(3/10·k)` rounds identically to `float(0.3)·k` at every reachable
operand, so the two tests agree on integer inputs). -/
def analyze_text_structure (page_text : List Char) : TextAnalysis :=
  let lines := (splitOnNl page_text).filter (fun ln => trimC ln ≠ [])
  let text_lower := lowerC page_text
  let result_density := (result_phrases.map (fun ph => countSub ph text_lower)).sum
  let s1 : Nat := if 3 ≤ result_density then 2 else 0
  let i1 : List (List Char) :=
    if 3 ≤ result_density then [("test result density: ").data ++ natToChars result_density] else []
  let criteria_count := ccCount page_text
  let s2 : Nat := if 2 ≤ criteria_count then 1 else 0
  let i2 : List (List Char) :=
    if 2 ≤ criteria_count then [("CC criteria: ").data ++ natToChars criteria_count] else []
  let s3 : Nat := if isSubstr ("(continued)").data text_lower then 1 else 0
  let i3 : List (List Char) :=
    if isSubstr ("(continued)").data text_lower then [("continued marker").data] else []
  let mc := (lines.filter
    (fun ln => 2 ≤ ((splitWs3 (trimC ln)).filter (fun ch => trimC ch ≠ [])).length)).length
  let s4 : Nat := if lines ≠ [] ∧ 3 * lines.length < 10 * mc then 1 else 0
  let i4 : List (List Char) :=
    if lines ≠ [] ∧ 3 * lines.length < 10 * mc then
      [("multi-column lines: ").data ++ natToChars mc]
    else []
  { line_count := lines.length
    indicators := i1 ++ i2 ++ i3 ++ i4
    score_adjustments := s1 + s2 + s3 + s4 }

-- ---------------------------------------------------------------------------
-- Page classifier (`is_table_page`) and segmenter (`segment_content`).
-- ---------------------------------------------------------------------------

/-- Result record of `is_table_page`. -/
structure PageAnalysis where
  is_table : Bool
  score : Int
  reasons : List (List Char)
  forced_narrative : Bool
  forced_table : Bool
deriving DecidableEq

/-- `is_table_page`: section-based classification with the structural
fallback branch kept verbatim from the source. -/
def is_table_page (page_text : List Char) (page_idx : Nat) (section_info : List Nat) :
    PageAnalysis :=
  let section_num := section_info.getD page_idx 0
  if section_num ∈ ([0, 1, 2] : List Nat) then
    let reasons :=
      if section_num = 0 then [("Before Section III (cover/TOC -> narrative)").data]
      else [("Section ").data ++ natToChars section_num ++ (" (auditor/management -> narrative)").data]
    { is_table := false, score := -10, reasons := reasons,
      forced_narrative := true, forced_table := false }
  else if 3 ≤ section_num then
    { is_table := true, score := 10,
      reasons := [("Section ").data ++ natToChars section_num ++ (" (system/controls/testing -> table)").data],
      forced_narrative := false, forced_table := true }
  else
    let ta := analyze_text_structure page_text
    let score : Int := (ta.score_adjustments : Int)
    { is_table := decide ((2 : Int) ≤ score), score := score,
      reasons := ("Unknown section - using structural analysis").data :: ta.indicators,
      forced_narrative := false, forced_table := false }

/-- One entry of the per-page classification trail. -/
structure PageClass where
  page : Nat
  is_table : Bool
  section_num : Nat
  forced_narrative : Bool
  forced_table : Bool
  reasons : List (List Char)
deriving DecidableEq

/-- Result record of `segment_content`. -/
structure Segments where
  table_text : List Char
  narrative_text : List Char
  classifications : List PageClass
deriving DecidableEq

/-- The `=== PAGE n ===` marker prefixed to each page's text. -/
def labelPage (n : Nat) (p : List Char) : List Char :=
  ("=== PAGE ").data ++ natToChars n ++ (" ===\n").data ++ p

/-- `segment_content`: classify every page, then distribute each labeled
page text into the table or the narrative stream in original order. -/
def segment_content (pages : List (List Char)) : Segments :=
  let section_info := detect_section_markers pages
  let classifications := pages.enum.map (fun ip =>
    let a := is_table_page ip.2 ip.1 section_info
    ({ page := ip.1 + 1, is_table := a.is_table, section_num := section_info.getD ip.1 0,
       forced_narrative := a.forced_narrative, forced_table := a.forced_table,
       reasons := a.reasons } : PageClass))
  let parts := pages.enum.foldl (fun (acc : List (List Char) × List (List Char)) ip =>
    let labeled := labelPage (ip.1 + 1) ip.2
    if (is_table_page ip.2 ip.1 section_info).is_table then (acc.1 ++ [labeled], acc.2)
    else (acc.1, acc.2 ++ [labeled])) ([], [])
  { table_text := List.intercalate ("\n\n").data parts.1
    narrative_text := List.intercalate ("\n\n").data parts.2
    classifications := classifications }

-- ---------------------------------------------------------------------------
-- Control merging / deduplication (`_control_key`, `merge_controls`,
-- `merge_criteria_into_controls`, `_normalize_control_ref`).
-- ---------------------------------------------------------------------------

/-- A control record, with the fields this logic reads.  The source stores
controls as dicts; absent keys read back as `""`/`[]`, which the defaults
of the empty list already model.  The `criterion` value may arrive as a
bare string in Python and is coerced to a singleton list before use
(lines 623-624); the field is modelled post-coercion as a list. -/
structure Control where
  control_id : List Char
  control_title : List Char
  control_description : List Char
  criterion : List (List Char)
deriving DecidableEq

instance : Inhabited Control := ⟨⟨[], [], [], []⟩⟩

/-- `_control_key`: the SHA-1 dedup key over normalized title/description.
The hash itself is external (`hashlib`); the key is modelled by the
pre-image string `f"{title}|||{desc}"` it hashes, on which the code assumes
the digest to be injective. -/
def _control_key (c : Control) : List Char :=
  lowerC (trimC c.control_title) ++ ("|||").data ++ lowerC (trimC c.control_description)

/-- The synthesized id `f"C-{n:03d}"`. -/
def synthId (n : Nat) : List Char :=
  ("C-").data ++
    (if n < 10 then '0' :: '0' :: natToChars n
     else if n < 100 then '0' :: natToChars n
     else natToChars n)

/-- The id-assignment pass at the end of `merge_controls`: every control
whose id strips to empty receives the next synthesized id; the counter
starts from the caller's `next_id`. -/
def assign_ids : Nat → List Control → List Control
  | _, [] => []
  | n, c :: cs =>
    if trimC c.control_id = [] then
      { c with control_id := synthId n } :: assign_ids (n + 1) cs
    else
      c :: assign_ids n cs

/-- Controls of a list whose id strips to empty. -/
def countMissing (l : List Control) : Nat :=
  (l.filter (fun c => trimC c.control_id = [])).length

/-- The accumulation pass of `merge_controls`: append each new control
whose key is unseen, growing the seen set. -/
def dedupAppend (seen : List (List Char)) : List Control → List Control
  | [] => []
  | c :: cs =>
    let key := _control_key c
    if key ∈ seen then dedupAppend seen cs
    else c :: dedupAppend (key :: seen) cs

/-- `merge_controls`: dedup-append the new controls onto the existing ones,
then assign ids to every id-less control, the counter restarting at 1. -/
def merge_controls (existing new_ones : List Control) : List Control :=
  assign_ids 1 (existing ++ dedupAppend (existing.map _control_key) new_ones)

/-- One criteria mapping (`criterion_id`, raw `mapped_controls`
references). -/
structure Mapping where
  criterion_id : List Char
  mapped_controls : List (List Char)
deriving DecidableEq

/-- Insertion-ordered update of the reverse index: creates the key on first
sight, appends the criterion only when the key's list does not already
contain it. -/
def alInsert (ref : List Char) (crit : List Char) :
    List (List Char × List (List Char)) → List (List Char × List (List Char))
  | [] => [(ref, [crit])]
  | (k, vs) :: rest =>
    if k = ref then (k, if crit ∈ vs then vs else vs ++ [crit]) :: rest
    else (k, vs) :: alInsert ref crit rest

/-- The reverse index `control_to_criteria` built by
`merge_criteria_into_controls` (a Python dict, modelled as an
insertion-ordered association list). -/
def buildReverse (ms : List Mapping) : List (List Char × List (List Char)) :=
  ms.foldl (fun al m =>
    (m.mapped_controls.map trimC).foldl
      (fun al ref => if ref ≠ [] then alInsert ref m.criterion_id al else al) al) []

/-- Dict lookup on the reverse index. -/
def alGet (al : List (List Char × List (List Char))) (k : List Char) :
    Option (List (List Char)) :=
  match al.find? (fun kv => kv.1 == k) with
  | some kv => some kv.2
  | none => none

/-- `_normalize_control_ref`: strip, and when the reference is shaped
`\d+\.\d+` drop leading zeros of both components. -/
def _normalize_control_ref (ref : List Char) : List Char :=
  let r := trimC ref
  let d1 := r.takeWhile Char.isDigit
  if d1 ≠ [] then
    match r.drop d1.length with
    | '.' :: r2 =>
      if r2 ≠ [] ∧ r2.all Char.isDigit then
        natToChars (natOfDigits d1) ++ '.' :: natToChars (natOfDigits r2)
      else r
    | _ => r
  else r

/-- The criteria the reverse index holds for a control id: exact lookup,
then — when that yields nothing — the first key matching under
`_normalize_control_ref`. -/
def mappedFor (rev : List (List Char × List (List Char))) (control_id : List Char) :
    List (List Char) :=
  let m := (alGet rev control_id).getD []
  if m = [] then
    match rev.find?
        (fun kv => _normalize_control_ref kv.1 == _normalize_control_ref control_id) with
    | some kv => kv.2
    | none => []
  else m

/-- Lexicographic (code-point) order on strings, the order of Python
`sorted` on `str`. -/
def strLe : List Char → List Char → Bool
  | [], _ => true
  | _ :: _, [] => false
  | x :: xs, y :: ys => if x = y then strLe xs ys else decide (x < y)

/-- `sorted(...)` over strings. -/
def sortStrings (l : List (List Char)) : List (List Char) :=
  List.insertionSort (fun a b => strLe a b = true) l

/-- The per-control body of `merge_criteria_into_controls`: normalize the
extraction-time criteria, fetch reverse-indexed ones, and store
`sorted(set(existing + new))`. -/
def applyCriteria (rev : List (List Char × List (List Char))) (control : Control) : Control :=
  let control_id := trimC control.control_id
  let existing_criteria := (control.criterion.map trimC).filter (fun c => c ≠ [])
  let mapped_criteria := mappedFor rev control_id
  let new_criteria := mapped_criteria.filter (fun c => c ∉ existing_criteria)
  let all_criteria := existing_criteria ++ new_criteria
  { control with
      criterion := if all_criteria = [] then [] else sortStrings all_criteria.dedup }

/-- `merge_criteria_into_controls`. -/
def merge_criteria_into_controls (controls : List Control) (criteria_mappings : List Mapping) :
    List Control :=
  controls.map (applyCriteria (buildReverse criteria_mappings))

-- ---------------------------------------------------------------------------
-- Orchestrator (`invoke_bedrock_with_retry`, `extract_controls_cursor`).
-- The inference transport is external; one logical call is modelled by a
-- sequence of per-attempt outcomes (for the retry wrapper) and the
-- orchestrator consumes a list of post-retry call outcomes, one entry per
-- `invoke_bedrock_with_retry` invocation, in call order.  The prompt texts
-- do not influence the modelled outcomes and are abstracted into the
-- oracle; the table-text selection feeding every table-phase prompt is kept
-- explicit (`extract_table_text`, `used_table_text`).
-- ---------------------------------------------------------------------------

/-- The per-document cache entry written by `/parse`. -/
structure Cache where
  full_text : List Char
  table_text : List Char
  narrative_text : List Char
  pages : List (List Char)
deriving DecidableEq

/-- The `meta` block of a paginated response (`dict.get` defaults). -/
structure Meta where
  last_control_id : List Char := []
  last_index : List Char := []
  last_description : List Char := []
  has_more : Bool := false
deriving DecidableEq

/-- One parsed model response, all fields read through `dict.get` with
these defaults. -/
structure CallResp where
  auditor_opinion : List Char := []
  controls : List Control := []
  exceptions : List (List Char) := []
  subservice_controls : List (List Char) := []
  user_entity_controls : List (List Char) := []
  criteria_mappings : List Mapping := []
  meta : Meta := {}
deriving DecidableEq

/-- Result and observable sleep trace of `invoke_bedrock_with_retry`. -/
structure RetryOut (A : Type) where
  result : Except (List Char) A
  sleeps : List Nat

/-- The retry loop: attempt `k` failing sleeps `2 ** k` and moves on; the
fuel is the remaining attempt budget. -/
def retryGo {A : Type} (attempts : Nat → Except (List Char) A) :
    Nat → Nat → RetryOut A
  | _, 0 => { result := .error ("retries exhausted").data, sleeps := [] }
  | k, fuel + 1 =>
    match attempts k with
    | .ok a => { result := .ok a, sleeps := [] }
    | .error _ =>
      let r := retryGo attempts (k + 1) fuel
      { result := r.result, sleeps := 2 ^ k :: r.sleeps }

/-- `invoke_bedrock_with_retry`: run up to `maxRetries` attempts; on
exhaustion raise the phase-level `RuntimeError`. -/
def invoke_bedrock_with_retry {A : Type} (attempts : Nat → Except (List Char) A)
    (maxRetries : Nat) : RetryOut A :=
  let r := retryGo attempts 0 maxRetries
  match r.result with
  | .ok a => { result := .ok a, sleeps := r.sleeps }
  | .error _ =>
    { result := .error (("Bedrock failed after ").data ++ natToChars maxRetries ++ (" attempts").data)
      sleeps := r.sleeps }

/-- Python's string `or` used on cursor fields. -/
def orStr (a b : List Char) : List Char := if a ≠ [] then a else b

/-- Outcome of one logical (post-retry) model call. -/
abbrev OE := Except (List Char) CallResp

/-- Consume the next call outcome; a failed call surfaces its error, an
exhausted oracle stands for a call that never returns. -/
def popCall : List OE → Except (List Char) (CallResp × List OE)
  | [] => .error ("no further model responses").data
  | .error e :: _ => .error e
  | .ok r :: rest => .ok (r, rest)

/-- The vendor-controls pagination loop: merge each batch via
`merge_controls`, trust `meta.has_more`, thread the reported cursor. -/
def controlsLoop : List OE → List Control → List Char →
    Except (List Char) (List Control × List OE)
  | [], _, _ => .error ("no further model responses").data
  | .error e :: _, _, _ => .error e
  | .ok r :: rest, merged, _cursor =>
    let merged2 := merge_controls merged r.controls
    let cursor2 := orStr r.meta.last_control_id r.meta.last_index
    if r.meta.has_more then controlsLoop rest merged2 cursor2
    else .ok (merged2, rest)

/-- The subservice / user-entity pagination loops (plain `extend`
accumulation, projection and cursor field differing per phase). -/
def extendLoop (proj : CallResp → List (List Char)) (cursorOf : CallResp → List Char) :
    List OE → List (List Char) → List Char →
    Except (List Char) (List (List Char) × List OE)
  | [], _, _ => .error ("no further model responses").data
  | .error e :: _, _, _ => .error e
  | .ok r :: rest, acc, _cursor =>
    let acc2 := acc ++ proj r
    if r.meta.has_more then extendLoop proj cursorOf rest acc2 (cursorOf r)
    else .ok (acc2, rest)

/-- The HTTP response of `/extract_cursor`: either the error-only JSON
(`{"ok": False, "error": msg}`) or the assembled result payload. -/
inductive ExtractResult where
  | err (msg : List Char)
  | ok (auditor_opinion : List Char) (vendor_controls : List Control)
      (exceptions : List (List Char)) (subservice_controls : List (List Char))
      (user_entity_controls : List (List Char)) (criteria_mappings : List Mapping)
deriving DecidableEq

/-- The table-text selection of `extract_controls_cursor` (line 1151):
fall back to the full labeled text when the cached table text strips to
empty. -/
def extract_table_text (cache : Cache) : List Char :=
  if trimC cache.table_text ≠ [] then cache.table_text else cache.full_text

/-- Response plus the document text substituted into the shared
table-phase system prompt. -/
structure ExtractOut where
  used_table_text : List Char
  result : ExtractResult
deriving DecidableEq

/-- `extract_controls_cursor`: the six phases in call order; any failed
call maps to the phase-tagged error response carrying no other data. -/
def extract_controls_cursor (cache : Cache) (oracle : List OE) : ExtractOut :=
  let table_text := extract_table_text cache
  let result :=
    match popCall oracle with
    | .error e => ExtractResult.err (("Bedrock error (auditor opinion): ").data ++ e)
    | .ok (r1, o1) =>
      match controlsLoop o1 [] [] with
      | .error e => ExtractResult.err (("Bedrock error (controls): ").data ++ e)
      | .ok (merged_controls, o2) =>
        match popCall o2 with
        | .error e => ExtractResult.err (("Bedrock error (exceptions): ").data ++ e)
        | .ok (r3, o3) =>
          match extendLoop (fun r => r.subservice_controls)
              (fun r => r.meta.last_control_id) o3 [] [] with
          | .error e => ExtractResult.err (("Bedrock error (subservice): ").data ++ e)
          | .ok (sub, o4) =>
            match extendLoop (fun r => r.user_entity_controls)
                (fun r => r.meta.last_description) o4 [] [] with
            | .error e => ExtractResult.err (("Bedrock error (user entity): ").data ++ e)
            | .ok (ue, o5) =>
              match popCall o5 with
              | .error e => ExtractResult.err (("Bedrock error (criteria): ").data ++ e)
              | .ok (r6, _) =>
                let final_controls :=
                  merge_criteria_into_controls merged_controls r6.criteria_mappings
                ExtractResult.ok r1.auditor_opinion final_controls r3.exceptions sub ue
                  r6.criteria_mappings
  { used_table_text := table_text, result := result }

-- ---------------------------------------------------------------------------
-- General helper lemmas.
-- ---------------------------------------------------------------------------

theorem dropWhile_ne_nil_of_exists {p : Char → Bool} {l : List Char}
    (h : ∃ c ∈ l, p c = false) : l.dropWhile p ≠ [] := by
  induction l with
  | nil => simp at h
  | cons a t ih =>
    rcases h with ⟨c, hc, hpc⟩
    by_cases hpa : p a
    · rw [List.dropWhile_cons_of_pos hpa]
      apply ih
      rcases List.mem_cons.1 hc with rfl | hmem
      · rw [hpa] at hpc; cases hpc
      · exact ⟨c, hmem, hpc⟩
    · rw [List.dropWhile_cons_of_neg hpa]
      simp

theorem trimC_ne_nil {l : List Char} (h : ∃ c ∈ l, isWsC c = false) : trimC l ≠ [] := by
  unfold trimC dropTrailWs dropLeadWs
  intro hcontra
  rw [List.reverse_eq_nil_iff] at hcontra
  rcases h with ⟨c, hc, hpc⟩
  have hdl : l.dropWhile isWsC ≠ [] := dropWhile_ne_nil_of_exists ⟨c, hc, hpc⟩
  have hc2 : c ∈ l.dropWhile isWsC := by
    have hsplit := List.takeWhile_append_dropWhile (p := isWsC) (l := l)
    have : c ∈ l.takeWhile isWsC ++ l.dropWhile isWsC := by rw [hsplit]; exact hc
    rcases List.mem_append.1 this with htk | hdp
    · have := List.mem_takeWhile_imp htk
      rw [this] at hpc; cases hpc
    · exact hdp
  exact dropWhile_ne_nil_of_exists ⟨c, by simpa using hc2, hpc⟩ hcontra

-- ---------------------------------------------------------------------------
-- C1: the section rule forces the classifier's label.
-- ---------------------------------------------------------------------------

/-- C1: for every page text and section map, `is_table_page` classifies by
section number alone: table exactly when the detected section is at least
3, narrative for sections 0, 1 and 2 — the structural score never enters. -/
theorem is_table_page_section_forcing (page_text : List Char) (page_idx : Nat)
    (section_info : List Nat) :
    (is_table_page page_text page_idx section_info).is_table =
      decide (3 ≤ section_info.getD page_idx 0) := by
  unfold is_table_page
  set s := section_info.getD page_idx 0 with hs
  by_cases h1 : s ∈ ([0, 1, 2] : List Nat)
  · have h3 : ¬ 3 ≤ s := by
      simp only [List.mem_cons, List.mem_singleton, List.not_mem_nil, or_false] at h1
      rcases h1 with h | h | h <;> omega
    simp [h1, h3]
  · have h3 : 3 ≤ s := by
      simp only [List.mem_cons, List.mem_singleton, List.not_mem_nil, or_false] at h1
      push_neg at h1
      omega
    simp [h1, h3]

-- ---------------------------------------------------------------------------
-- C4: the structural-fallback branch for "section undetermined" is dead
-- code — section 0 is force-classified narrative, whatever the score.
-- ---------------------------------------------------------------------------

/-- C4 counterexample: a page whose structural score is 2 (three
testing-language phrases) and whose section is 0 is classified narrative,
refuting "section 0 pages classify table iff score ≥ 2". -/
theorem classifier_fallback_dead_cex :
    (analyze_text_structure
        ("no exceptions noted. no exceptions noted. no exceptions noted.").data).score_adjustments
      = 2 ∧
    (is_table_page
        ("no exceptions noted. no exceptions noted. no exceptions noted.").data
        0 [0]).is_table = false := by
  constructor
  · rfl
  · rfl

/-- C4 amended: a page whose detected section is 0 is forced narrative
regardless of its structural score, and every page lands in one of the two
forced branches — the score-based fallback of `is_table_page` is
unreachable. -/
theorem classifier_section_zero_forced (page_text : List Char) (page_idx : Nat)
    (section_info : List Nat) :
    (section_info.getD page_idx 0 = 0 →
      (is_table_page page_text page_idx section_info).is_table = false ∧
      (is_table_page page_text page_idx section_info).forced_narrative = true) ∧
    ((is_table_page page_text page_idx section_info).forced_narrative = true ∨
      (is_table_page page_text page_idx section_info).forced_table = true) := by
  unfold is_table_page
  set s := section_info.getD page_idx 0 with hs
  by_cases h1 : s ∈ ([0, 1, 2] : List Nat)
  · simp [h1]
  · have h3 : 3 ≤ s := by
      simp only [List.mem_cons, List.mem_singleton, List.not_mem_nil, or_false] at h1
      push_neg at h1
      omega
    have h0 : s ≠ 0 := by omega
    simp [h1, h3, h0]

/-- Witness for `classifier_section_zero_forced` at a concrete page. -/
theorem classifier_section_zero_forced_witness :
    ((is_table_page ("some page").data 0 [0]).is_table = false ∧
      (is_table_page ("some page").data 0 [0]).forced_narrative = true) ∧
    ((is_table_page ("some page").data 0 [0]).forced_narrative = true ∨
      (is_table_page ("some page").data 0 [0]).forced_table = true) :=
  ⟨(classifier_section_zero_forced ("some page").data 0 [0]).1 rfl,
   (classifier_section_zero_forced ("some page").data 0 [0]).2⟩

-- ---------------------------------------------------------------------------
-- C10: blank table stream falls back to the full labeled text.
-- ---------------------------------------------------------------------------

/-- C10: the document text fed to the table-phase prompts of
`extract_controls_cursor` is the cached table stream when that stream is
non-blank, and the full labeled document text when the table stream strips
to empty. -/
theorem extract_table_text_fallback (cache : Cache) (oracle : List OE) :
    (extract_controls_cursor cache oracle).used_table_text = extract_table_text cache ∧
    (trimC cache.table_text = [] → extract_table_text cache = cache.full_text) ∧
    (trimC cache.table_text ≠ [] → extract_table_text cache = cache.table_text) := by
  refine ⟨rfl, ?_, ?_⟩
  · intro h
    unfold extract_table_text
    simp [h]
  · intro h
    unfold extract_table_text
    simp [h]

/-- Witness for `extract_table_text_fallback` on a blank and a non-blank
table stream. -/
theorem extract_table_text_fallback_witness :
    extract_table_text ⟨("full text").data, ("  \n ").data, [], []⟩ = ("full text").data ∧
    extract_table_text ⟨("full text").data, ("tables").data, [], []⟩ = ("tables").data :=
  ⟨(extract_table_text_fallback ⟨("full text").data, ("  \n ").data, [], []⟩ []).2.1 rfl,
   (extract_table_text_fallback ⟨("full text").data, ("tables").data, [], []⟩ []).2.2 (by decide)⟩

-- ---------------------------------------------------------------------------
-- Shared lemmas about id assignment.
-- ---------------------------------------------------------------------------

theorem control_key_set_id (c : Control) (x : List Char) :
    _control_key { c with control_id := x } = _control_key c := rfl

theorem trimC_synthId_ne (n : Nat) : trimC (synthId n) ≠ [] := by
  apply trimC_ne_nil
  refine ⟨'C', ?_, by decide⟩
  unfold synthId
  exact List.mem_append_left _ (by decide)

theorem countMissing_cons (c : Control) (l : List Control) :
    countMissing (c :: l) =
      (if trimC c.control_id = [] then 1 else 0) + countMissing l := by
  by_cases h : trimC c.control_id = []
  · simp [countMissing, List.filter, h]
    omega
  · simp [countMissing, List.filter, h]

theorem assign_ids_id_ne_nil : ∀ (n : Nat) (l : List Control) (c : Control),
    c ∈ assign_ids n l → trimC c.control_id ≠ [] := by
  intro n l
  induction l generalizing n with
  | nil => intro c hc; simp [assign_ids] at hc
  | cons a t ih =>
    intro c hc
    by_cases hm : trimC a.control_id = []
    · rw [assign_ids, if_pos hm] at hc
      rcases List.mem_cons.1 hc with rfl | hmem
      · simpa using trimC_synthId_ne n
      · exact ih (n + 1) c hmem
    · rw [assign_ids, if_neg hm] at hc
      rcases List.mem_cons.1 hc with rfl | hmem
      · exact hm
      · exact ih n c hmem

theorem assign_ids_getD (l : List Control) : ∀ (n i : Nat), i < l.length →
    (assign_ids n l).getD i default =
      (if trimC (l.getD i default).control_id = [] then
        { l.getD i default with control_id := synthId (n + countMissing (l.take i)) }
      else l.getD i default) := by
  induction l with
  | nil => intro n i hi; simp at hi
  | cons a t ih =>
    intro n i hi
    by_cases hm : trimC a.control_id = []
    · rw [assign_ids, if_pos hm]
      cases i with
      | zero => simp [hm, countMissing]
      | succ j =>
        have hj : j < t.length := by simpa using hi
        have := ih (n + 1) j hj
        simp only [List.getD_cons_succ, List.take_succ_cons, countMissing_cons, if_pos hm]
        rw [this]
        have harith : n + 1 + countMissing (t.take j) = n + (1 + countMissing (t.take j)) := by omega
        rw [harith]
    · rw [assign_ids, if_neg hm]
      cases i with
      | zero => simp [hm]
      | succ j =>
        have hj : j < t.length := by simpa using hi
        have := ih n j hj
        simp only [List.getD_cons_succ, List.take_succ_cons, countMissing_cons, if_neg hm]
        rw [this]
        simp

-- ---------------------------------------------------------------------------
-- C2: dedup retains the first-seen control; its id survives only when it
-- is non-empty, otherwise a synthesized id replaces it even if a later
-- duplicate carried a real one.
-- ---------------------------------------------------------------------------

/-- C2 counterexample: two passes carry the same normalized
(title, description) with ids `""` then `"7"`; the merged set keeps one
entry whose id is the synthesized `"C-001"`, not `"7"` — refuting
"retains the first-seen non-empty id ... in either order". -/
theorem merge_controls_first_seen_empty_id_cex :
    (merge_controls
        (merge_controls [] [⟨[], ("Access Review").data, ("desc").data, []⟩])
        [⟨['7'], ("Access Review").data, ("desc").data, []⟩]).map
      (fun c => c.control_id) = [("C-001").data] ∧
    ("C-001").data ≠ ['7'] := by
  constructor
  · rfl
  · decide

/-- C2 amended: two controls with equal dedup keys merged across two
passes collapse to exactly one entry — the first-seen control; that entry
keeps the first control's id when it is non-empty and otherwise receives
the synthesized id `C-001`, regardless of the second control's id. -/
theorem merge_controls_dedup_first_seen (c1 c2 : Control)
    (h : _control_key c1 = _control_key c2) :
    merge_controls (merge_controls [] [c1]) [c2] =
      [if trimC c1.control_id = [] then { c1 with control_id := synthId 1 } else c1] := by
  have hinner : merge_controls [] [c1] =
      [if trimC c1.control_id = [] then { c1 with control_id := synthId 1 } else c1] := by
    by_cases hm : trimC c1.control_id = [] <;>
      simp [merge_controls, dedupAppend, assign_ids, hm]
  rw [hinner]
  set c1' := if trimC c1.control_id = [] then { c1 with control_id := synthId 1 } else c1 with hc1'
  have hkey : _control_key c1' = _control_key c2 := by
    rw [hc1']
    by_cases hm : trimC c1.control_id = []
    · rw [if_pos hm, control_key_set_id]; exact h
    · rw [if_neg hm]; exact h
  have hid : trimC c1'.control_id ≠ [] := by
    rw [hc1']
    by_cases hm : trimC c1.control_id = []
    · rw [if_pos hm]
      simpa using trimC_synthId_ne 1
    · rw [if_neg hm]; exact hm
  have hdedup : dedupAppend ([c1'].map _control_key) [c2] = [] := by
    simp [dedupAppend, hkey.symm]
  unfold merge_controls
  rw [hdedup, List.append_nil]
  simp [assign_ids, hid]

/-- Witness for `merge_controls_dedup_first_seen`: when the control with
id "7" arrives first, the merged set is exactly that control. -/
theorem merge_controls_dedup_first_seen_witness :
    merge_controls
        (merge_controls [] [⟨['7'], ("Access Review").data, ("desc").data, []⟩])
        [⟨[], ("Access Review").data, ("desc").data, []⟩] =
      [⟨['7'], ("Access Review").data, ("desc").data, []⟩] :=
  (merge_controls_dedup_first_seen
      ⟨['7'], ("Access Review").data, ("desc").data, []⟩
      ⟨[], ("Access Review").data, ("desc").data, []⟩ (by decide)).trans (by decide)

-- ---------------------------------------------------------------------------
-- C9: id synthesis restarts its counter on every merge invocation, so
-- synthesized ids can repeat across passes; every merged control does end
-- with a non-empty id.
-- ---------------------------------------------------------------------------

/-- C9 counterexample: two passes each contribute one id-less control
(distinct titles); after the second `merge_controls` both carry the same
synthesized id `C-001` — refuting "assigned sequentially across the whole
accumulated set, so no two controls receive the same synthesized id". -/
theorem synth_id_collision_cex :
    (merge_controls (merge_controls [] [⟨[], ("t1").data, [], []⟩])
        [⟨[], ("t2").data, [], []⟩]).map (fun c => c.control_id) =
      [("C-001").data, ("C-001").data] ∧
    ¬ ((merge_controls (merge_controls [] [⟨[], ("t1").data, [], []⟩])
        [⟨[], ("t2").data, [], []⟩]).map (fun c => c.control_id)).Nodup := by
  constructor
  · rfl
  · decide

/-- C9 amended: after any `merge_controls` call every control's id strips
non-empty, and within one call the id-less controls receive `C-{n:03d}`
sequentially in encounter order with the counter restarting at the
caller-fixed base (1 for `merge_controls`) — so ids are distinct within a
call but may repeat across passes. -/
theorem merge_controls_id_assignment :
    (∀ (existing new_ones : List Control) (c : Control),
        c ∈ merge_controls existing new_ones → trimC c.control_id ≠ []) ∧
    (∀ (l : List Control) (n i : Nat), i < l.length →
        (assign_ids n l).getD i default =
          (if trimC (l.getD i default).control_id = [] then
            { l.getD i default with control_id := synthId (n + countMissing (l.take i)) }
          else l.getD i default)) := by
  constructor
  · intro ex new c hc
    exact assign_ids_id_ne_nil 1 _ c hc
  · intro l n i hi
    exact assign_ids_getD l n i hi

/-- Witness for `merge_controls_id_assignment` at a concrete merge. -/
theorem merge_controls_id_assignment_witness :
    trimC ((merge_controls [] [⟨[], ("t1").data, [], []⟩]).getD 0 default).control_id ≠ [] ∧
    (assign_ids 1 [⟨[], ("t1").data, [], []⟩]).getD 0 default =
      (if trimC (([⟨[], ("t1").data, [], []⟩] : List Control).getD 0 default).control_id = [] then
        { ([⟨[], ("t1").data, [], []⟩] : List Control).getD 0 default with
            control_id := synthId (1 + countMissing (([⟨[], ("t1").data, [], []⟩] : List Control).take 0)) }
      else ([⟨[], ("t1").data, [], []⟩] : List Control).getD 0 default) :=
  ⟨merge_controls_id_assignment.1 [] [⟨[], ("t1").data, [], []⟩] _
      (by decide),
   merge_controls_id_assignment.2 [⟨[], ("t1").data, [], []⟩] 1 0 (by decide)⟩

-- ---------------------------------------------------------------------------
-- C3: there is no widening pass — each page's text lands exactly in the
-- stream of its own label.
-- ---------------------------------------------------------------------------

theorem segment_fold_eq (section_info : List Nat) :
    ∀ (l : List (Nat × List Char)) (acc1 acc2 : List (List Char)),
      l.foldl (fun (acc : List (List Char) × List (List Char)) ip =>
          let labeled := labelPage (ip.1 + 1) ip.2
          if (is_table_page ip.2 ip.1 section_info).is_table then (acc.1 ++ [labeled], acc.2)
          else (acc.1, acc.2 ++ [labeled])) (acc1, acc2) =
      (acc1 ++ (l.filter (fun ip => (is_table_page ip.2 ip.1 section_info).is_table)).map
          (fun ip => labelPage (ip.1 + 1) ip.2),
       acc2 ++ (l.filter (fun ip => ! (is_table_page ip.2 ip.1 section_info).is_table)).map
          (fun ip => labelPage (ip.1 + 1) ip.2)) := by
  intro l
  induction l with
  | nil => intro acc1 acc2; simp
  | cons a t ih =>
    intro acc1 acc2
    by_cases h : (is_table_page a.2 a.1 section_info).is_table <;>
      simp [h, ih, List.filter_cons]

/-- C3 counterexample: a two-page document whose first page is narrative
(section 0) and whose second page opens section III (table); the first
page's text does not appear in the table stream — there is no widening
pass pulling a narrative page that precedes a table page into the table
stream. -/
theorem segment_no_widening_cex :
    (is_table_page ("Cover page intro").data 0
        (detect_section_markers
          [("Cover page intro").data,
           ("SECTION III\nDescription of the system").data])).is_table = false ∧
    (is_table_page ("SECTION III\nDescription of the system").data 1
        (detect_section_markers
          [("Cover page intro").data,
           ("SECTION III\nDescription of the system").data])).is_table = true ∧
    isSubstr ("Cover page intro").data
        ((segment_content
          [("Cover page intro").data,
           ("SECTION III\nDescription of the system").data]).table_text) = false := by
  refine ⟨rfl, rfl, rfl⟩

/-- C3 amended: `segment_content` performs no widening — the table stream
is exactly the concatenation of the labeled texts of the pages classified
table, and the narrative stream exactly that of the pages classified
narrative, in original order. -/
theorem segment_partition_exact (pages : List (List Char)) :
    (segment_content pages).table_text = List.intercalate ("\n\n").data
        ((pages.enum.filter (fun ip =>
            (is_table_page ip.2 ip.1 (detect_section_markers pages)).is_table)).map
          (fun ip => labelPage (ip.1 + 1) ip.2)) ∧
    (segment_content pages).narrative_text = List.intercalate ("\n\n").data
        ((pages.enum.filter (fun ip =>
            ! (is_table_page ip.2 ip.1 (detect_section_markers pages)).is_table)).map
          (fun ip => labelPage (ip.1 + 1) ip.2)) := by
  have h := segment_fold_eq (detect_section_markers pages) pages.enum [] []
  unfold segment_content
  dsimp only
  rw [h]
  simp

-- ---------------------------------------------------------------------------
-- C5: the forward-fill invariant of section detection.
-- ---------------------------------------------------------------------------

theorem getD_cons_ite (x : Nat) (l : List Nat) (n : Nat) :
    (x :: l).getD n 0 = if n = 0 then x else l.getD (n - 1) 0 := by
  cases n <;> simp

theorem detectLoop_length : ∀ (cur : Nat) (ps : List (List Char)),
    (detectLoop cur ps).length = ps.length := by
  intro cur ps
  induction ps generalizing cur with
  | nil => rfl
  | cons p t ih => by_cases h : isTocPage p <;> simp [detectLoop, h, ih]

theorem detectLoop_getD : ∀ (ps : List (List Char)) (cur i : Nat), i < ps.length →
    (detectLoop cur ps).getD i 0 =
      (if isTocPage (ps.getD i []) ∨ detected_section (ps.getD i []) = 0 then
        (if i = 0 then cur else (detectLoop cur ps).getD (i - 1) 0)
      else detected_section (ps.getD i [])) := by
  intro ps
  induction ps with
  | nil => intro cur i hi; simp at hi
  | cons p t ih =>
    intro cur i hi
    cases i with
    | zero =>
      by_cases htoc : isTocPage p
      · simp [detectLoop, htoc]
      · by_cases hd : detected_section p = 0
        · simp [detectLoop, htoc, hd]
        · have hpos : 0 < detected_section p := Nat.pos_of_ne_zero hd
          simp [detectLoop, htoc, hd, hpos]
    | succ j =>
      have hj : j < t.length := by simpa using hi
      obtain ⟨cur2, hstep⟩ : ∃ cur2, detectLoop cur (p :: t) = cur2 :: detectLoop cur2 t := by
        by_cases htoc : isTocPage p
        · exact ⟨cur, by simp [detectLoop, htoc]⟩
        · refine ⟨if 0 < detected_section p then detected_section p else cur, ?_⟩
          by_cases hd : 0 < detected_section p <;> simp [detectLoop, htoc, hd]
      rw [hstep]
      simp only [List.getD_cons_succ, Nat.add_sub_cancel, Nat.succ_ne_zero, if_false]
      rw [ih cur2 j hj, getD_cons_ite]

/-- C5: section detection is a forward fill — the recorded value on a page
equals the page's own parsed marker when one parses to a positive value,
and otherwise (no marker, unparsable marker, or a table-of-contents page,
whose markers are skipped outright) equals the previous page's recorded
value, starting from 0. -/
theorem detect_forward_fill (pages : List (List Char)) :
    (detect_section_markers pages).length = pages.length ∧
    ∀ i, i < pages.length →
      (detect_section_markers pages).getD i 0 =
        (if isTocPage (pages.getD i []) ∨ detected_section (pages.getD i []) = 0 then
          (if i = 0 then 0 else (detect_section_markers pages).getD (i - 1) 0)
        else detected_section (pages.getD i [])) := by
  constructor
  · exact detectLoop_length 0 pages
  · intro i hi
    exact detectLoop_getD pages 0 i hi

/-- Witness for `detect_forward_fill`: a table-of-contents page carrying an
explicit `SECTION I` marker still records the prior section (3). -/
theorem detect_forward_fill_witness :
    (detect_section_markers
        [("SECTION III\nIntro").data, ("Table of Contents\nSECTION I").data]).getD 1 0 =
      (if isTocPage (([("SECTION III\nIntro").data,
            ("Table of Contents\nSECTION I").data]).getD 1 []) ∨
          detected_section (([("SECTION III\nIntro").data,
            ("Table of Contents\nSECTION I").data]).getD 1 []) = 0 then
        (if (1 : Nat) = 0 then 0 else
          (detect_section_markers
            [("SECTION III\nIntro").data, ("Table of Contents\nSECTION I").data]).getD 0 0)
      else detected_section (([("SECTION III\nIntro").data,
            ("Table of Contents\nSECTION I").data]).getD 1 [])) :=
  (detect_forward_fill
    [("SECTION III\nIntro").data, ("Table of Contents\nSECTION I").data]).2 1 (by decide)

-- ---------------------------------------------------------------------------
-- C6: retry with exponential backoff; exhaustion aborts the whole request
-- with an error-only response.
-- ---------------------------------------------------------------------------

theorem range_pow_succ (k m : Nat) :
    (List.range (m + 1)).map (fun j => 2 ^ (k + j)) =
      2 ^ k :: (List.range m).map (fun j => 2 ^ (k + 1 + j)) := by
  rw [List.range_succ_eq_map]
  simp only [List.map_cons, List.map_map, Nat.add_zero]
  congr 1
  apply List.map_congr_left
  intro j _
  simp only [Function.comp_apply]
  congr 1
  omega

theorem retryGo_all_fail {A : Type} (attempts : Nat → Except (List Char) A) :
    ∀ (n k : Nat), (∀ j, j < n → ∃ e, attempts (k + j) = Except.error e) →
      (∃ m, (retryGo attempts k n).result = Except.error m) ∧
      (retryGo attempts k n).sleeps = (List.range n).map (fun j => 2 ^ (k + j)) := by
  intro n
  induction n with
  | zero => intro k _; exact ⟨⟨_, rfl⟩, rfl⟩
  | succ m ih =>
    intro k h
    obtain ⟨e, he⟩ := h 0 (Nat.succ_pos m)
    rw [Nat.add_zero] at he
    have hrest : ∀ j, j < m → ∃ e, attempts (k + 1 + j) = Except.error e := by
      intro j hj
      obtain ⟨e2, he2⟩ := h (j + 1) (by omega)
      exact ⟨e2, by rw [← he2]; congr 1; omega⟩
    obtain ⟨⟨msg, hres⟩, hsleeps⟩ := ih (k + 1) hrest
    refine ⟨⟨msg, ?_⟩, ?_⟩
    · rw [retryGo, he]
      exact hres
    · rw [retryGo, he, range_pow_succ]
      simp [hsleeps]

theorem retryGo_succeeds {A : Type} (attempts : Nat → Except (List Char) A) :
    ∀ (kk n k : Nat) (a : A), kk < n →
      (∀ j, j < kk → ∃ e, attempts (k + j) = Except.error e) →
      attempts (k + kk) = Except.ok a →
      (retryGo attempts k n).result = Except.ok a ∧
      (retryGo attempts k n).sleeps = (List.range kk).map (fun j => 2 ^ (k + j)) := by
  intro kk
  induction kk with
  | zero =>
    intro n k a hn _ hok
    obtain ⟨m, rfl⟩ := Nat.exists_eq_succ_of_ne_zero (Nat.pos_iff_ne_zero.1 hn)
    rw [Nat.add_zero] at hok
    rw [retryGo, hok]
    exact ⟨rfl, rfl⟩
  | succ kk ih =>
    intro n k a hn hfail hok
    obtain ⟨m, rfl⟩ := Nat.exists_eq_succ_of_ne_zero (by omega : n ≠ 0)
    obtain ⟨e, he⟩ := hfail 0 (Nat.succ_pos kk)
    rw [Nat.add_zero] at he
    have hfail2 : ∀ j, j < kk → ∃ e, attempts (k + 1 + j) = Except.error e := by
      intro j hj
      obtain ⟨e2, he2⟩ := hfail (j + 1) (by omega)
      exact ⟨e2, by rw [← he2]; congr 1; omega⟩
    have hok2 : attempts (k + 1 + kk) = Except.ok a := by
      rw [← hok]; congr 1; omega
    obtain ⟨hres, hsleeps⟩ := ih m (k + 1) a (by omega) hfail2 hok2
    constructor
    · rw [retryGo, he]; exact hres
    · rw [retryGo, he, range_pow_succ]
      simp [hsleeps]

/-- C6: a failing attempt `k` of `invoke_bedrock_with_retry` sleeps
`2 ** k`; the call is retried up to the configured maximum number of
attempts, succeeding as soon as one attempt succeeds; exhausting the
budget raises the phase failure, and `extract_controls_cursor` maps any
failed call to the phase-tagged error response that carries no extraction
data from any phase. -/
theorem retry_backoff_and_abort :
    (∀ (attempts : Nat → Except (List Char) CallResp) (n : Nat),
      (∀ j, j < n → ∃ e, attempts j = Except.error e) →
        (invoke_bedrock_with_retry attempts n).result =
          Except.error (("Bedrock failed after ").data ++ natToChars n ++ (" attempts").data) ∧
        (invoke_bedrock_with_retry attempts n).sleeps =
          (List.range n).map (fun j => 2 ^ j)) ∧
    (∀ (attempts : Nat → Except (List Char) CallResp) (n k : Nat) (a : CallResp),
      k < n → (∀ j, j < k → ∃ e, attempts j = Except.error e) →
      attempts k = Except.ok a →
        (invoke_bedrock_with_retry attempts n).result = Except.ok a ∧
        (invoke_bedrock_with_retry attempts n).sleeps =
          (List.range k).map (fun j => 2 ^ j)) ∧
    (∀ (cache : Cache) (e : List Char) (tail : List OE),
      (extract_controls_cursor cache (Except.error e :: tail)).result =
        ExtractResult.err (("Bedrock error (auditor opinion): ").data ++ e)) ∧
    (∀ (cache : Cache) (r : CallResp) (e : List Char) (tail : List OE),
      (extract_controls_cursor cache (Except.ok r :: Except.error e :: tail)).result =
        ExtractResult.err (("Bedrock error (controls): ").data ++ e)) := by
  refine ⟨?_, ?_, ?_, ?_⟩
  · intro attempts n h
    have h0 : ∀ j, j < n → ∃ e, attempts (0 + j) = Except.error e := by
      intro j hj
      simpa using h j hj
    obtain ⟨⟨m, hres⟩, hsleeps⟩ := retryGo_all_fail attempts n 0 h0
    unfold invoke_bedrock_with_retry
    dsimp only
    rw [hres]
    refine ⟨rfl, ?_⟩
    simpa using hsleeps
  · intro attempts n k a hk hfail hok
    have hfail0 : ∀ j, j < k → ∃ e, attempts (0 + j) = Except.error e := by
      intro j hj
      simpa using hfail j hj
    obtain ⟨hres, hsleeps⟩ :=
      retryGo_succeeds attempts k n 0 a hk hfail0 (by simpa using hok)
    unfold invoke_bedrock_with_retry
    dsimp only
    rw [hres]
    refine ⟨rfl, ?_⟩
    simpa using hsleeps
  · intro cache e tail
    rfl
  · intro cache r e tail
    rfl

/-- Witness for `retry_backoff_and_abort`: three failing attempts sleep
1, 2, 4; a first-call failure aborts with the error-only response. -/
theorem retry_backoff_and_abort_witness :
    (invoke_bedrock_with_retry (fun _ => (Except.error ['x'] : Except (List Char) CallResp)) 3).sleeps
        = [1, 2, 4] ∧
    (invoke_bedrock_with_retry (fun _ => (Except.error ['x'] : Except (List Char) CallResp)) 3).result
        = Except.error (("Bedrock failed after ").data ++ natToChars 3 ++ (" attempts").data) ∧
    (extract_controls_cursor ⟨[], [], [], []⟩ [Except.error ['x']]).result =
      ExtractResult.err (("Bedrock error (auditor opinion): ").data ++ ['x']) := by
  have h1 := retry_backoff_and_abort.1 (fun _ => (Except.error ['x'] : Except (List Char) CallResp))
    3 (fun j _ => ⟨['x'], rfl⟩)
  refine ⟨?_, h1.1, retry_backoff_and_abort.2.2.1 ⟨[], [], [], []⟩ ['x'] []⟩
  rw [h1.2]
  rfl

-- ---------------------------------------------------------------------------
-- C8: criteria reconciliation is a sorted, monotone union.
-- ---------------------------------------------------------------------------

theorem strLe_total : ∀ a b : List Char, strLe a b = true ∨ strLe b a = true := by
  intro a
  induction a with
  | nil => intro b; left; rfl
  | cons x xs ih =>
    intro b
    cases b with
    | nil => right; rfl
    | cons y ys =>
      by_cases hxy : x = y
      · subst hxy
        rcases ih ys with h | h
        · left; simpa [strLe] using h
        · right; simpa [strLe] using h
      · rcases lt_or_gt_of_ne hxy with h | h
        · left; simp [strLe, hxy, h]
        · right; simp [strLe, Ne.symm hxy, h]

theorem strLe_trans : ∀ a b c : List Char,
    strLe a b = true → strLe b c = true → strLe a c = true := by
  intro a
  induction a with
  | nil => intro b c _ _; rfl
  | cons x xs ih =>
    intro b c hab hbc
    cases b with
    | nil => simp [strLe] at hab
    | cons y ys =>
      cases c with
      | nil => simp [strLe] at hbc
      | cons z zs =>
        by_cases hxy : x = y <;> by_cases hyz : y = z
        · subst hxy; subst hyz
          simp only [strLe, if_pos rfl] at hab hbc ⊢
          exact ih ys zs hab hbc
        · subst hxy
          simp only [strLe, if_pos rfl, if_neg hyz] at hab hbc ⊢
          exact hbc
        · subst hyz
          simp only [strLe, if_pos rfl, if_neg hxy] at hab hbc ⊢
          exact hab
        · simp only [strLe, if_neg hxy, if_neg hyz, decide_eq_true_eq] at hab hbc
          have hxz : x < z := lt_trans hab hbc
          simp only [strLe, if_neg (ne_of_lt hxz), decide_eq_true_eq]
          exact hxz

instance : IsTotal (List Char) (fun a b => strLe a b = true) := ⟨strLe_total⟩

instance : IsTrans (List Char) (fun a b => strLe a b = true) :=
  ⟨fun a b c => strLe_trans a b c⟩

theorem mem_sortStrings (l : List (List Char)) (s : List Char) :
    s ∈ sortStrings l ↔ s ∈ l :=
  (List.perm_insertionSort _ l).mem_iff

/-- C8: criteria reconciliation maps `applyCriteria` over every control;
for each control the final criteria list is sorted and contains a
criterion exactly when it is an extraction-time criterion or a
reverse-indexed one — so no extraction-time criterion is ever
discarded. -/
theorem criteria_union_monotone (controls : List Control) (ms : List Mapping) :
    merge_criteria_into_controls controls ms =
      controls.map (applyCriteria (buildReverse ms)) ∧
    ∀ c : Control,
      List.Sorted (fun a b => strLe a b = true)
        ((applyCriteria (buildReverse ms) c).criterion) ∧
      (∀ s : List Char,
        s ∈ (applyCriteria (buildReverse ms) c).criterion ↔
          s ∈ (c.criterion.map trimC).filter (fun x => x ≠ []) ∨
          s ∈ mappedFor (buildReverse ms) (trimC c.control_id)) ∧
      (∀ s ∈ (c.criterion.map trimC).filter (fun x => x ≠ []),
        s ∈ (applyCriteria (buildReverse ms) c).criterion) := by
  refine ⟨rfl, ?_⟩
  intro c
  have hcrit : (applyCriteria (buildReverse ms) c).criterion =
      (if ((c.criterion.map trimC).filter (fun x => x ≠ []) ++
            (mappedFor (buildReverse ms) (trimC c.control_id)).filter
              (fun x => x ∉ (c.criterion.map trimC).filter (fun x => x ≠ []))) = [] then []
       else sortStrings (((c.criterion.map trimC).filter (fun x => x ≠ []) ++
            (mappedFor (buildReverse ms) (trimC c.control_id)).filter
              (fun x => x ∉ (c.criterion.map trimC).filter (fun x => x ≠ []))).dedup)) := rfl
  have hiff : ∀ s : List Char,
      s ∈ (applyCriteria (buildReverse ms) c).criterion ↔
        s ∈ (c.criterion.map trimC).filter (fun x => x ≠ []) ∨
        s ∈ mappedFor (buildReverse ms) (trimC c.control_id) := by
    intro s
    rw [hcrit]
    set ex := (c.criterion.map trimC).filter (fun x => x ≠ []) with hex
    set mp := mappedFor (buildReverse ms) (trimC c.control_id) with hmp
    by_cases hall : ex ++ mp.filter (fun x => x ∉ ex) = []
    · rw [if_pos hall]
      obtain ⟨hexnil, hnewnil⟩ := List.append_eq_nil.1 hall
      have hmpnil : mp = [] := by
        rw [hexnil] at hnewnil
        have : mp.filter (fun x => x ∉ ([] : List (List Char))) = mp :=
          List.filter_eq_self.2 (fun a _ => by simp)
        rw [this] at hnewnil
        exact hnewnil
      simp [hexnil, hmpnil]
    · rw [if_neg hall]
      rw [mem_sortStrings, List.mem_dedup, List.mem_append]
      constructor
      · rintro (h | h)
        · exact Or.inl h
        · exact Or.inr (List.mem_filter.1 h).1
      · rintro (h | h)
        · exact Or.inl h
        · by_cases hin : s ∈ ex
          · exact Or.inl hin
          · exact Or.inr (List.mem_filter.2 ⟨h, by simpa using hin⟩)
  refine ⟨?_, hiff, ?_⟩
  · rw [hcrit]
    by_cases hall : ((c.criterion.map trimC).filter (fun x => x ≠ []) ++
        (mappedFor (buildReverse ms) (trimC c.control_id)).filter
          (fun x => x ∉ (c.criterion.map trimC).filter (fun x => x ≠ []))) = []
    · rw [if_pos hall]; exact List.sorted_nil
    · rw [if_neg hall]
      exact List.sorted_insertionSort _ _
  · intro s hs
    exact (hiff s).2 (Or.inl hs)

/-- Witness for `criteria_union_monotone`: extraction-time `["CC1.1"]`
gaining mapping-derived `"CC6.1"` ends `["CC1.1", "CC6.1"]`, and `"CC1.1"`
is preserved. -/
theorem criteria_union_monotone_witness :
    (merge_criteria_into_controls [⟨['1'], [], [], [("CC1.1").data]⟩]
        [⟨("CC6.1").data, [['1']]⟩]).map (fun c => c.criterion) =
      [[("CC1.1").data, ("CC6.1").data]] ∧
    ("CC1.1").data ∈ (applyCriteria (buildReverse [⟨("CC6.1").data, [['1']]⟩])
        ⟨['1'], [], [], [("CC1.1").data]⟩).criterion :=
  ⟨by decide,
   ((criteria_union_monotone [⟨['1'], [], [], [("CC1.1").data]⟩]
      [⟨("CC6.1").data, [['1']]⟩]).2 ⟨['1'], [], [], [("CC1.1").data]⟩).2.2
     (("CC1.1").data) (by decide)⟩

-- ---------------------------------------------------------------------------
-- C7: string/trim lemma toolkit.
-- ---------------------------------------------------------------------------

/-- Characters a surrounding-prose hypothesis admits: anything that is not
JSON-structural (no braces, brackets, quote, minus, backtick, digit). -/
def isProseC (c : Char) : Bool :=
  !(c = lbrace || c = rbrace || c = '[' || c = ']' || c = '"' || c = '-' ||
    c = btick || c.isDigit)

theorem isProseC_spec {a : Char} (h : isProseC a = true) :
    a ≠ lbrace ∧ a ≠ rbrace ∧ a ≠ '[' ∧ a ≠ ']' ∧ a ≠ '"' ∧ a ≠ '-' ∧
    a ≠ btick ∧ a.isDigit = false := by
  refine ⟨?_, ?_, ?_, ?_, ?_, ?_, ?_, ?_⟩
  · intro hcon; subst hcon; exact absurd h (by decide)
  · intro hcon; subst hcon; exact absurd h (by decide)
  · intro hcon; subst hcon; exact absurd h (by decide)
  · intro hcon; subst hcon; exact absurd h (by decide)
  · intro hcon; subst hcon; exact absurd h (by decide)
  · intro hcon; subst hcon; exact absurd h (by decide)
  · intro hcon; subst hcon; exact absurd h (by decide)
  · by_contra hcon
    rw [Bool.not_eq_false] at hcon
    simp [isProseC, hcon] at h

theorem jsonWs_isWs {c : Char} (h : isJsonWs c = true) : isWsC c = true := by
  simp only [isJsonWs, Bool.or_eq_true, decide_eq_true_eq] at h
  rcases h with ((h | h) | h) | h <;> simp [isWsC, h]

theorem not_jsonWs_of_not_ws {c : Char} (h : isWsC c = false) : isJsonWs c = false := by
  by_contra hcon
  rw [Bool.not_eq_false] at hcon
  rw [jsonWs_isWs hcon] at h
  cases h

theorem mem_of_mem_dropWhile {p : Char → Bool} {c : Char} {l : List Char}
    (h : c ∈ l.dropWhile p) : c ∈ l := by
  have hsplit := List.takeWhile_append_dropWhile (p := p) (l := l)
  rw [← hsplit]
  exact List.mem_append_right _ h

theorem mem_of_mem_dropTrailWs {c : Char} {l : List Char}
    (h : c ∈ dropTrailWs l) : c ∈ l := by
  unfold dropTrailWs at h
  rw [List.mem_reverse] at h
  simpa using mem_of_mem_dropWhile h

theorem mem_of_mem_trimC {c : Char} {l : List Char} (h : c ∈ trimC l) : c ∈ l :=
  mem_of_mem_dropWhile (mem_of_mem_dropTrailWs h)

theorem dropLeadWs_cons_head {s : List Char} (h : dropLeadWs s ≠ []) :
    ∃ a t, dropLeadWs s = a :: t ∧ isWsC a = false ∧ a ∈ s := by
  rcases hd : dropLeadWs s with _ | ⟨a, t⟩
  · exact absurd hd h
  · refine ⟨a, t, rfl, ?_, ?_⟩
    · have hthis := List.head?_dropWhile_not isWsC s
      rw [show s.dropWhile isWsC = dropLeadWs s from rfl, hd] at hthis
      simpa using hthis
    · apply mem_of_mem_dropWhile (p := isWsC)
      rw [show s.dropWhile isWsC = dropLeadWs s from rfl, hd]
      exact List.mem_cons_self a t

theorem dropLeadWs_ne_nil {l : List Char} (h : ∃ c ∈ l, isWsC c = false) :
    dropLeadWs l ≠ [] :=
  dropWhile_ne_nil_of_exists h

theorem dropTrailWs_ne_nil {l : List Char} (h : ∃ c ∈ l, isWsC c = false) :
    dropTrailWs l ≠ [] := by
  unfold dropTrailWs
  rcases h with ⟨c, hc, hpc⟩
  simp only [ne_eq, List.reverse_eq_nil_iff]
  exact dropWhile_ne_nil_of_exists ⟨c, List.mem_reverse.2 hc, hpc⟩

theorem dropLeadWs_append {a x : List Char} (h : dropLeadWs a ≠ []) :
    dropLeadWs (a ++ x) = dropLeadWs a ++ x := by
  unfold dropLeadWs at *
  rw [List.dropWhile_append, if_neg]
  simpa [List.isEmpty_iff] using h

theorem dropLeadWs_ws_append {a x : List Char} (h : ∀ c ∈ a, isWsC c = true) :
    dropLeadWs (a ++ x) = dropLeadWs x := by
  unfold dropLeadWs
  rw [List.dropWhile_append, if_pos]
  simp only [List.isEmpty_iff, List.dropWhile_eq_nil_iff]
  intro c hc
  exact h c hc

theorem dropTrailWs_append {x b : List Char} (h : dropTrailWs b ≠ []) :
    dropTrailWs (x ++ b) = x ++ dropTrailWs b := by
  unfold dropTrailWs at *
  rw [List.reverse_append, List.dropWhile_append, if_neg, List.reverse_append,
    List.reverse_reverse]
  simp only [List.isEmpty_iff]
  intro hcon
  rw [hcon] at h
  simp at h

theorem dropTrailWs_append_ws {x b : List Char} (h : ∀ c ∈ b, isWsC c = true) :
    dropTrailWs (x ++ b) = dropTrailWs x := by
  unfold dropTrailWs
  rw [List.reverse_append, List.dropWhile_append, if_pos]
  simp only [List.isEmpty_iff, List.dropWhile_eq_nil_iff, List.mem_reverse]
  intro c hc
  exact h c hc

theorem trimC_eq_self_of {l : List Char}
    (hh : ∀ c, l.head? = some c → isWsC c = false)
    (hl : ∀ c, l.getLast? = some c → isWsC c = false) : trimC l = l := by
  cases l with
  | nil => rfl
  | cons a t =>
    have ha : isWsC a = false := hh a rfl
    unfold trimC dropLeadWs dropTrailWs
    rw [List.dropWhile_cons_of_neg (by simp [ha])]
    have hrev : (a :: t).reverse ≠ [] := by simp
    rcases hr : (a :: t).reverse with _ | ⟨y, ys⟩
    · exact absurd hr hrev
    · have hy : isWsC y = false := by
        apply hl
        rw [← List.head?_reverse, hr]
        rfl
      rw [List.dropWhile_cons_of_neg (by simp [hy]), ← hr, List.reverse_reverse]

theorem dropTrailWs_decomp (m : List Char) :
    m = dropTrailWs m ++ (m.reverse.takeWhile isWsC).reverse := by
  unfold dropTrailWs
  conv_lhs => rw [← List.reverse_reverse m,
    ← List.takeWhile_append_dropWhile (p := isWsC) (l := m.reverse)]
  rw [List.reverse_append]

theorem dropWhile_idem (p : Char → Bool) (x : List Char) :
    (x.dropWhile p).dropWhile p = x.dropWhile p := by
  rcases hd : x.dropWhile p with _ | ⟨y, ys⟩
  · rfl
  · have hy : p y = false := by
      have hthis := List.head?_dropWhile_not p x
      rw [hd] at hthis
      simpa using hthis
    rw [List.dropWhile_cons_of_neg (by simp [hy])]

theorem dropTrailWs_idem (m : List Char) : dropTrailWs (dropTrailWs m) = dropTrailWs m := by
  unfold dropTrailWs
  rw [List.reverse_reverse, dropWhile_idem]

theorem head?_nonws_of_dropLeadWs (l : List Char) :
    ∀ c, (dropLeadWs l).head? = some c → isWsC c = false := by
  intro c hc
  have hthis := List.head?_dropWhile_not isWsC l
  rw [show l.dropWhile isWsC = dropLeadWs l from rfl, hc] at hthis
  simpa using hthis

theorem dropLeadWs_dropTrailWs (m : List Char)
    (hm : ∀ c, m.head? = some c → isWsC c = false) :
    dropLeadWs (dropTrailWs m) = dropTrailWs m := by
  rcases hd : dropTrailWs m with _ | ⟨b, t⟩
  · rfl
  · have hdec := dropTrailWs_decomp m
    rw [hd] at hdec
    have hb : isWsC b = false := by
      apply hm
      rw [hdec]
      rfl
    unfold dropLeadWs
    rw [List.dropWhile_cons_of_neg (by simp [hb])]

theorem trimC_idem (l : List Char) : trimC (trimC l) = trimC l := by
  show trimC (dropTrailWs (dropLeadWs l)) = dropTrailWs (dropLeadWs l)
  unfold trimC
  rw [dropLeadWs_dropTrailWs (dropLeadWs l) (head?_nonws_of_dropLeadWs l), dropTrailWs_idem]

theorem parseJson_eq_of_trim_eq {x y : List Char} (h : trimC x = trimC y) :
    parseJson x = parseJson y := by
  unfold parseJson
  rw [h]

theorem parseJson_nil {x : List Char} (h : trimC x = []) : parseJson x = none := by
  unfold parseJson
  rw [h]
  rfl

theorem trimC_ne_nil_of_parse {P : List Char} {v : Json} (h : parseJson P = some v) :
    trimC P ≠ [] := by
  intro hcon
  rw [parseJson_nil hcon] at h
  cases h

theorem trim_concat3 {a m b : List Char} (ha : dropLeadWs a ≠ [])
    (hb : dropTrailWs b ≠ []) :
    trimC (a ++ m ++ b) = dropLeadWs a ++ m ++ dropTrailWs b := by
  unfold trimC
  rw [List.append_assoc, dropLeadWs_append ha, ← List.append_assoc,
    dropTrailWs_append hb]

theorem isPrefixOf_exists : ∀ {l1 l2 : List Char}, l1.isPrefixOf l2 = true →
    ∃ r, l1 ++ r = l2 := by
  intro l1
  induction l1 with
  | nil => intro l2 _; exact ⟨l2, rfl⟩
  | cons x xs ih =>
    intro l2 h
    cases l2 with
    | nil => simp [List.isPrefixOf] at h
    | cons y ys =>
      simp only [List.isPrefixOf, Bool.and_eq_true, beq_iff_eq] at h
      obtain ⟨r, hr⟩ := ih h.2
      exact ⟨r, by rw [List.cons_append, h.1, hr]⟩

/-- The modelled `json.loads` fails whenever the first significant
character of the input cannot start a JSON value; a keyword that does
match leaves the rest of the input (which still holds `{`) as trailing
garbage. -/
theorem parseJson_head_fail (x : List Char) (a : Char) (t' : List Char)
    (hts : trimC x = a :: t')
    (h1 : a ≠ lbrace) (h2 : a ≠ '[') (h3 : a ≠ '"') (h4 : a ≠ '-')
    (h5 : a.isDigit = false) (hjw : isJsonWs a = false)
    (hkw : lbrace ∈ t' ∨
      (("true".data).isPrefixOf (a :: t') = false ∧
       ("false".data).isPrefixOf (a :: t') = false ∧
       ("null".data).isPrefixOf (a :: t') = false)) :
    parseJson x = none := by
  unfold parseJson
  rw [hts]
  have hdw : (a :: t').dropWhile isJsonWs = a :: t' :=
    List.dropWhile_cons_of_neg (by simp [hjw])
  simp only [pVal, hdw]
  rw [if_neg h1, if_neg h2, if_neg h3]
  rcases hkw with hmem | ⟨hkT, hkF, hkN⟩
  · by_cases hkT : ("true".data).isPrefixOf (a :: t') = true
    · obtain ⟨rest, hrest⟩ : ∃ rest, ("true").data ++ rest = a :: t' :=
        isPrefixOf_exists hkT
      have hcons : 't' :: (('r' :: 'u' :: 'e' :: []) ++ rest) = a :: t' := hrest
      have ht' : ('r' :: 'u' :: 'e' :: []) ++ rest = t' := (List.cons.injEq _ _ _ _ ▸ hcons).2
      have hmemr : lbrace ∈ rest := by
        rw [← ht'] at hmem
        rcases List.mem_append.1 hmem with hk | hk
        · exact absurd hk (by decide)
        · exact hk
      have hdrop : (a :: t').drop 4 = rest := by
        rw [← hcons]
        rfl
      have hne : rest.dropWhile isJsonWs ≠ [] :=
        dropWhile_ne_nil_of_exists ⟨lbrace, hmemr, by decide⟩
      rw [if_pos hkT, hdrop]
      simp [hne]
    · rw [if_neg hkT]
      by_cases hkF : ("false".data).isPrefixOf (a :: t') = true
      · obtain ⟨rest, hrest⟩ : ∃ rest, ("false").data ++ rest = a :: t' :=
          isPrefixOf_exists hkF
        have hcons : 'f' :: (('a' :: 'l' :: 's' :: 'e' :: []) ++ rest) = a :: t' := hrest
        have ht' : ('a' :: 'l' :: 's' :: 'e' :: []) ++ rest = t' :=
          (List.cons.injEq _ _ _ _ ▸ hcons).2
        have hmemr : lbrace ∈ rest := by
          rw [← ht'] at hmem
          rcases List.mem_append.1 hmem with hk | hk
          · exact absurd hk (by decide)
          · exact hk
        have hdrop : (a :: t').drop 5 = rest := by
          rw [← hcons]
          rfl
        have hne : rest.dropWhile isJsonWs ≠ [] :=
          dropWhile_ne_nil_of_exists ⟨lbrace, hmemr, by decide⟩
        rw [if_pos hkF, hdrop]
        simp [hne]
      · rw [if_neg hkF]
        by_cases hkN : ("null".data).isPrefixOf (a :: t') = true
        · obtain ⟨rest, hrest⟩ : ∃ rest, ("null").data ++ rest = a :: t' :=
            isPrefixOf_exists hkN
          have hcons : 'n' :: (('u' :: 'l' :: 'l' :: []) ++ rest) = a :: t' := hrest
          have ht' : ('u' :: 'l' :: 'l' :: []) ++ rest = t' :=
            (List.cons.injEq _ _ _ _ ▸ hcons).2
          have hmemr : lbrace ∈ rest := by
            rw [← ht'] at hmem
            rcases List.mem_append.1 hmem with hk | hk
            · exact absurd hk (by decide)
            · exact hk
          have hdrop : (a :: t').drop 4 = rest := by
            rw [← hcons]
            rfl
          have hne : rest.dropWhile isJsonWs ≠ [] :=
            dropWhile_ne_nil_of_exists ⟨lbrace, hmemr, by decide⟩
          rw [if_pos hkN, hdrop]
          simp [hne]
        · rw [if_neg hkN, if_neg (by simp [h4, h5])]
  · rw [if_neg (by simp [hkT]), if_neg (by simp [hkF]), if_neg (by simp [hkN]),
      if_neg (by simp [h4, h5])]

theorem fence_isPrefixOf_false {a : Char} {r : List Char} (ha : a ≠ btick) :
    fence3.isPrefixOf (a :: r) = false := by
  have hbeq : (btick == a) = false := beq_eq_false_iff_ne.2 (Ne.symm ha)
  simp [fence3, List.isPrefixOf, hbeq]

theorem fence_isSuffixOf_false {s : List Char} {y : Char} {r : List Char}
    (hrev : s.reverse = y :: r) (hy : y ≠ btick) :
    fence3.isSuffixOf s = false := by
  show (fence3.reverse.isPrefixOf s.reverse) = false
  rw [hrev, show fence3.reverse = fence3 from rfl]
  exact fence_isPrefixOf_false hy

theorem strip_of_no_fences (text : List Char)
    (h1 : fence3.isPrefixOf (trimC text) = false)
    (h2 : fence3.isSuffixOf (trimC text) = false) :
    _strip_code_fences text = trimC text := by
  have e1 : stripLeadFenceAux (trimC text) = trimC text := by
    unfold stripLeadFenceAux
    rw [if_neg (by rw [h1]; simp)]
  have e2 : stripTrailFenceAux (trimC text) = trimC text := by
    unfold stripTrailFenceAux
    rw [if_neg (by rw [h2]; simp)]
  unfold _strip_code_fences
  by_cases htext : text = []
  · rw [if_pos htext, htext]
    rfl
  · rw [if_neg htext]
    dsimp only
    rw [e1, e2, trimC_idem]

theorem dropLeadWs_ne_nil_of_trim {P : List Char} (hP : trimC P ≠ []) :
    dropLeadWs P ≠ [] := by
  intro hcon
  apply hP
  unfold trimC
  rw [hcon]
  rfl

theorem strip_fence_wrap (P : List Char) (hP : trimC P ≠ []) :
    _strip_code_fences (("```json\n").data ++ P ++ ("\n```").data) = trimC P := by
  have hPlead : dropLeadWs P ≠ [] := dropLeadWs_ne_nil_of_trim hP
  have hf1 : ("```json\n").data =
      btick :: btick :: btick :: 'j' :: 's' :: 'o' :: 'n' :: '\n' :: [] := by decide
  have hf2 : ("\n```").data = '\n' :: btick :: btick :: btick :: [] := by decide
  have htextne : ("```json\n").data ++ P ++ ("\n```").data ≠ [] := by
    rw [List.append_assoc, hf1]
    simp
  have hhead : (("```json\n").data ++ P ++ ("\n```").data).head? = some btick := by
    rw [List.append_assoc, hf1]
    rfl
  have hlast : (("```json\n").data ++ P ++ ("\n```").data).getLast? = some btick := by
    rw [List.getLast?_append_of_ne_nil _ (by rw [hf2]; simp), hf2]
    rfl
  have htrim : trimC (("```json\n").data ++ P ++ ("\n```").data) =
      ("```json\n").data ++ P ++ ("\n```").data := by
    apply trimC_eq_self_of
    · intro c hc
      rw [hhead] at hc
      cases hc
      decide
    · intro c hc
      rw [hlast] at hc
      cases hc
      decide
  have hdrop3 : (("```json\n").data ++ P ++ ("\n```").data).drop 3 =
      'j' :: 's' :: 'o' :: 'n' :: '\n' :: (P ++ ("\n```").data) := by
    rw [List.append_assoc, hf1]
    rfl
  have e2 : stripLeadFenceAux (("```json\n").data ++ P ++ ("\n```").data) =
      dropLeadWs P ++ ("\n```").data := by
    unfold stripLeadFenceAux
    rw [if_pos (by rw [List.append_assoc, hf1]; simp [fence3, List.isPrefixOf])]
    dsimp only
    rw [hdrop3]
    rw [if_pos (by rfl)]
    show ((('\n' :: (P ++ ("\n```").data))).dropWhile isWsC) = dropLeadWs P ++ ("\n```").data
    rw [List.dropWhile_cons_of_pos (by decide)]
    exact dropLeadWs_append hPlead
  have e3 : stripTrailFenceAux (dropLeadWs P ++ ("\n```").data) = trimC P := by
    unfold stripTrailFenceAux
    have hsplit : dropLeadWs P ++ ("\n```").data =
        (dropLeadWs P ++ ['\n']) ++ fence3 := by
      rw [hf2, List.append_assoc]
      rfl
    rw [hsplit]
    rw [if_pos (List.isSuffixOf_iff_suffix.2 ⟨dropLeadWs P ++ ['\n'], rfl⟩)]
    have hlen : ((dropLeadWs P ++ ['\n']) ++ fence3).length - 3 =
        (dropLeadWs P ++ ['\n']).length := by
      simp [fence3]
    rw [hlen, List.take_left]
    rw [dropTrailWs_append_ws (by intro c hc; simp at hc; rw [hc]; rfl)]
    rfl
  unfold _strip_code_fences
  rw [if_neg htextne]
  dsimp only
  rw [htrim, e2, e3, trimC_idem]

theorem trim_fence_wrap (P : List Char) :
    trimC (("```json\n").data ++ P ++ ("\n```").data) =
      ("```json\n").data ++ P ++ ("\n```").data := by
  have hf1 : ("```json\n").data =
      btick :: btick :: btick :: 'j' :: 's' :: 'o' :: 'n' :: '\n' :: [] := by decide
  have hf2 : ("\n```").data = '\n' :: btick :: btick :: btick :: [] := by decide
  apply trimC_eq_self_of
  · intro c hc
    rw [List.append_assoc, hf1] at hc
    cases hc
    decide
  · intro c hc
    rw [List.getLast?_append_of_ne_nil _ (by rw [hf2]; simp), hf2] at hc
    cases hc
    decide

theorem findIdxChar_append_not_mem {c : Char} {A r : List Char} (h : c ∉ A) :
    findIdxChar c (A ++ c :: r) = some A.length := by
  induction A with
  | nil => simp [findIdxChar]
  | cons x xs ih =>
    have hx : x ≠ c := by
      intro hcon
      exact h (hcon ▸ List.mem_cons_self x xs)
    have hx2 : c ∉ xs := fun hm => h (List.mem_cons_of_mem x hm)
    simp [findIdxChar, hx, ih hx2]

theorem rfindIdxChar_none_of_not_mem {c : Char} {B : List Char} (h : c ∉ B) :
    rfindIdxChar c B = none := by
  induction B with
  | nil => rfl
  | cons x xs ih =>
    have hx : x ≠ c := by
      intro hcon
      exact h (hcon ▸ List.mem_cons_self x xs)
    have hx2 : c ∉ xs := fun hm => h (List.mem_cons_of_mem x hm)
    simp [rfindIdxChar, ih hx2, hx]

theorem rfindIdxChar_append_not_mem {c : Char} {A B : List Char} (h : c ∉ B) :
    rfindIdxChar c (A ++ c :: B) = some A.length := by
  induction A with
  | nil =>
    simp only [List.nil_append, rfindIdxChar, rfindIdxChar_none_of_not_mem h, if_pos rfl]
    rfl
  | cons x xs ih =>
    simp only [List.cons_append, rfindIdxChar]
    rw [show xs.append (c :: B) = xs ++ c :: B from rfl, ih]
    rfl

/-- C7: the recovery order of `_parse_model_json` — parse as-is, strip a
code fence and reparse, then parse the substring from the first `{` to the
last `}`.  A ```json-fenced payload parses to the same value as the
unwrapped payload; a single JSON object surrounded by leading and trailing
prose (characters that are not JSON-structural: no braces, brackets,
quote, minus, backtick or digit, with at least one non-blank character on
each side) recovers the same object through the brace span. -/
theorem parse_model_json_recovery :
    (∀ (P : List Char) (v : Json), parseJson P = some v →
      _parse_model_json (("```json\n").data ++ P ++ ("\n```").data) = some v ∧
      _parse_model_json P = some v) ∧
    (∀ (pre P post : List Char) (v : Json),
      parseJson P = some v →
      (∀ c ∈ pre, isProseC c = true) →
      (∀ c ∈ post, isProseC c = true) →
      (∃ c ∈ pre, isWsC c = false) →
      (∃ c ∈ post, isWsC c = false) →
      (trimC P).head? = some lbrace →
      (trimC P).getLast? = some rbrace →
      _parse_model_json (pre ++ P ++ post) = some v) := by
  constructor
  · intro P v hPv
    have hPtrim : trimC P ≠ [] := trimC_ne_nil_of_parse hPv
    have hparseP : parseJson (trimC P) = some v := by
      rw [parseJson_eq_of_trim_eq (trimC_idem P)]
      exact hPv
    constructor
    · have hf1 : ("```json\n").data =
          btick :: btick :: btick :: 'j' :: 's' :: 'o' :: 'n' :: '\n' :: [] := by decide
      have hts : trimC (("```json\n").data ++ P ++ ("\n```").data) =
          btick :: (btick :: btick :: 'j' :: 's' :: 'o' :: 'n' :: '\n' ::
            (P ++ ("\n```").data)) := by
        rw [trim_fence_wrap, List.append_assoc, hf1]
        rfl
      have hT : ("true").data = 't' :: 'r' :: 'u' :: 'e' :: [] := by decide
      have hF : ("false").data = 'f' :: 'a' :: 'l' :: 's' :: 'e' :: [] := by decide
      have hN : ("null").data = 'n' :: 'u' :: 'l' :: 'l' :: [] := by decide
      have hfail : parseJson (("```json\n").data ++ P ++ ("\n```").data) = none := by
        apply parseJson_head_fail _ btick _ hts
        · decide
        · decide
        · decide
        · decide
        · decide
        · decide
        · right
          refine ⟨?_, ?_, ?_⟩
          · rw [hT]
            simp [List.isPrefixOf, show ('t' == btick) = false from by decide]
          · rw [hF]
            simp [List.isPrefixOf, show ('f' == btick) = false from by decide]
          · rw [hN]
            simp [List.isPrefixOf, show ('n' == btick) = false from by decide]
      unfold _parse_model_json
      rw [hfail]
      dsimp only
      rw [strip_fence_wrap P hPtrim, hparseP]
    · unfold _parse_model_json
      rw [hPv]
  · intro pre P post v hPv hpre hpost hpnw hponw hheadP hlastP
    have hPtrim : trimC P ≠ [] := trimC_ne_nil_of_parse hPv
    have hparseP : parseJson (trimC P) = some v := by
      rw [parseJson_eq_of_trim_eq (trimC_idem P)]
      exact hPv
    have hpreL : dropLeadWs pre ≠ [] := dropLeadWs_ne_nil hpnw
    have hpostT : dropTrailWs post ≠ [] := dropTrailWs_ne_nil hponw
    have htrim3 : trimC (pre ++ P ++ post) = dropLeadWs pre ++ P ++ dropTrailWs post :=
      trim_concat3 hpreL hpostT
    obtain ⟨a, t0, ha_eq, ha_nws, ha_mem⟩ := dropLeadWs_cons_head hpreL
    obtain ⟨hanl, hanr, hanb1, _, hanq, hanm, hant, hand⟩ := isProseC_spec (hpre a ha_mem)
    obtain ⟨mid, hmid⟩ : ∃ mid, trimC P = lbrace :: mid := by
      rcases htp : trimC P with _ | ⟨b, bs⟩
      · exact absurd htp hPtrim
      · rw [htp] at hheadP
        injection hheadP with hb
        exact ⟨bs, by rw [hb]⟩
    obtain ⟨mid2, hmid2⟩ : ∃ mid2, trimC P = mid2 ++ [rbrace] :=
      List.getLast?_eq_some_iff.1 hlastP
    have hmid2ne : mid2 ≠ [] := by
      intro hcon
      rw [hcon, List.nil_append] at hmid2
      have hcomb : lbrace :: mid = [rbrace] := by rw [← hmid, hmid2]
      injection hcomb with hc1 _
      exact absurd hc1 (by decide)
    have hlbP : lbrace ∈ P :=
      mem_of_mem_trimC (by rw [hmid]; exact List.mem_cons_self _ _)
    have hts : trimC (pre ++ P ++ post) = a :: ((t0 ++ P) ++ dropTrailWs post) := by
      rw [htrim3, ha_eq]
      simp only [List.cons_append]
    have hfail : parseJson (pre ++ P ++ post) = none := by
      apply parseJson_head_fail _ a _ hts hanl hanb1 hanq hanm hand
        (not_jsonWs_of_not_ws ha_nws)
      left
      exact List.mem_append_left _ (List.mem_append_right _ hlbP)
    have hpf : fence3.isPrefixOf (trimC (pre ++ P ++ post)) = false := by
      rw [hts]
      exact fence_isPrefixOf_false hant
    obtain ⟨y, ys, hy_eq, hy_nws, hy_mem⟩ := dropLeadWs_cons_head
      (s := post.reverse) (by
        rcases hponw with ⟨c, hc, hcw⟩
        exact dropLeadWs_ne_nil ⟨c, List.mem_reverse.2 hc, hcw⟩)
    have hy_post : y ∈ post := List.mem_reverse.1 hy_mem
    obtain ⟨_, _, _, _, _, _, hyt, _⟩ := isProseC_spec (hpost y hy_post)
    have hrevtrim : (trimC (pre ++ P ++ post)).reverse =
        y :: (ys ++ (dropLeadWs pre ++ P).reverse) := by
      rw [htrim3,
        show dropLeadWs pre ++ P ++ dropTrailWs post =
          (dropLeadWs pre ++ P) ++ dropTrailWs post from rfl,
        List.reverse_append]
      have hdtw : (dropTrailWs post).reverse = y :: ys := by
        show ((post.reverse.dropWhile isWsC).reverse).reverse = y :: ys
        rw [List.reverse_reverse]
        exact hy_eq
      rw [hdtw]
      rfl
    have hsf : fence3.isSuffixOf (trimC (pre ++ P ++ post)) = false :=
      fence_isSuffixOf_false hrevtrim hyt
    have hstrip : _strip_code_fences (pre ++ P ++ post) = trimC (pre ++ P ++ post) :=
      strip_of_no_fences _ hpf hsf
    have hfail2 : parseJson (trimC (pre ++ P ++ post)) = none := by
      rw [parseJson_eq_of_trim_eq (trimC_idem _)]
      exact hfail
    have hP1 : P = P.takeWhile isWsC ++ dropLeadWs P :=
      (List.takeWhile_append_dropWhile (p := isWsC) (l := P)).symm
    have hP2 : dropLeadWs P =
        trimC P ++ ((dropLeadWs P).reverse.takeWhile isWsC).reverse :=
      dropTrailWs_decomp (dropLeadWs P)
    set A := dropLeadWs pre ++ P.takeWhile isWsC with hA
    set B := ((dropLeadWs P).reverse.takeWhile isWsC).reverse ++ dropTrailWs post with hB
    have hs_decomp : trimC (pre ++ P ++ post) = A ++ trimC P ++ B := by
      rw [htrim3]
      conv_lhs => rw [hP1, hP2]
      rw [hA, hB]
      simp [List.append_assoc]
    have hA_no_lb : lbrace ∉ A := by
      rw [hA]
      intro hmem
      rcases List.mem_append.1 hmem with hm | hm
      · exact (isProseC_spec (hpre lbrace (mem_of_mem_dropWhile hm))).1 rfl
      · exact absurd (List.mem_takeWhile_imp hm) (by decide)
    have hB_no_rb : rbrace ∉ B := by
      rw [hB]
      intro hmem
      rcases List.mem_append.1 hmem with hm | hm
      · exact absurd (List.mem_takeWhile_imp (List.mem_reverse.1 hm)) (by decide)
      · exact (isProseC_spec (hpost rbrace (mem_of_mem_dropTrailWs hm))).2.1 rfl
    have hshape1 : A ++ trimC P ++ B = A ++ lbrace :: (mid ++ B) := by
      rw [hmid]
      simp
    have hfind : findIdxChar lbrace (trimC (pre ++ P ++ post)) = some A.length := by
      rw [hs_decomp, hshape1]
      exact findIdxChar_append_not_mem hA_no_lb
    have hshape2 : A ++ trimC P ++ B = (A ++ mid2) ++ rbrace :: B := by
      rw [hmid2]
      simp
    have hrfind : rfindIdxChar rbrace (trimC (pre ++ P ++ post)) =
        some (A ++ mid2).length := by
      rw [hs_decomp, hshape2]
      exact rfindIdxChar_append_not_mem hB_no_rb
    have hlt : A.length < (A ++ mid2).length := by
      have hpos := List.length_pos.2 hmid2ne
      have hla : (A ++ mid2).length = A.length + mid2.length := List.length_append A mid2
      omega
    have hslice : ((trimC (pre ++ P ++ post)).drop A.length).take
        ((A ++ mid2).length + 1 - A.length) = trimC P := by
      rw [hs_decomp]
      have hstep : A ++ trimC P ++ B = A ++ (trimC P ++ B) := List.append_assoc A (trimC P) B
      rw [hstep, List.drop_left]
      have hlen : (A ++ mid2).length + 1 - A.length = (trimC P).length := by
        have hl1 : (A ++ mid2).length = A.length + mid2.length := List.length_append A mid2
        have hl2 : (trimC P).length = mid2.length + 1 := by
          rw [hmid2, List.length_append]
          rfl
        omega
      rw [hlen]
      exact List.take_left (trimC P) B
    unfold _parse_model_json
    rw [hfail]
    dsimp only
    rw [hstrip, hfail2, hfind, hrfind]
    dsimp only
    rw [if_pos hlt, hslice, hparseP]

/-- Witness for `parse_model_json_recovery` on a concrete object payload,
fenced and prose-wrapped. -/
theorem parse_model_json_recovery_witness :
    _parse_model_json (("```json\n").data ++ ("\x7b\"a\": 1\x7d").data ++ ("\n```").data) =
      some (Json.jobj [(['a'], Json.jnum ['1'])]) ∧
    _parse_model_json (("\x7b\"a\": 1\x7d").data) =
      some (Json.jobj [(['a'], Json.jnum ['1'])]) ∧
    _parse_model_json (("Here is the result ").data ++ ("\x7b\"a\": 1\x7d").data ++
        (" hope that helps").data) =
      some (Json.jobj [(['a'], Json.jnum ['1'])]) := by
  have hP : parseJson (("\x7b\"a\": 1\x7d").data) =
      some (Json.jobj [(['a'], Json.jnum ['1'])]) := by rfl
  have h1 := parse_model_json_recovery.1 (("\x7b\"a\": 1\x7d").data)
    (Json.jobj [(['a'], Json.jnum ['1'])]) hP
  refine ⟨h1.1, h1.2, ?_⟩
  exact parse_model_json_recovery.2 (("Here is the result ").data)
    (("\x7b\"a\": 1\x7d").data) ((" hope that helps").data)
    (Json.jobj [(['a'], Json.jnum ['1'])]) hP
    (by decide) (by decide) (by decide) (by decide) (by rfl) (by rfl)

end SocExtract
